import Mathlib

/-!
Verification of the risk_lotr_rules repository: a shallow embedding of the
PDF extraction pipeline (rebuild_lotr.py) and the composite image
segmentation utility (segment_images.py), with theorems settling the claims
of the natural language specification.

Conventions of the embedding:
  - Python strings are modelled as lists of characters (Str).
  - Python byte strings are modelled as lists of natural numbers.
  - Floating point coordinates and thresholds are modelled as rationals.
  - Fallible library calls are modelled with Option / explicit outcome types.
  - Opaque OpenCV primitives (imread, imdecode, cvtColor, Canny, the three
    piece detectors built on findContours) are parameters of the definitions
    that use them; everything the repository itself computes on their results
    is translated directly from the source.
-/

namespace LotR

/-! ## Python string primitives -/

/-- A Python string, modelled as a list of characters. -/
abbrev Str := List Char

/-- Whitespace test used by Python str.strip. -/
def isWs (c : Char) : Bool := c.isWhitespace

/-- Python str.strip: remove leading and trailing whitespace. -/
def strip (s : Str) : Str :=
  ((s.dropWhile isWs).reverse.dropWhile isWs).reverse

/-- A string has content when it holds at least one non-whitespace character. -/
def hasContent (s : Str) : Bool := s.any (fun c => !(isWs c))

/-- Python sep.join with separator a single newline. -/
def joinLines : List Str → Str
  | [] => []
  | [l] => l
  | l :: l2 :: ls => l ++ '\n' :: joinLines (l2 :: ls)

theorem strip_eq_nil_iff (s : Str) :
    strip s = [] ↔ hasContent s = false := by
  unfold strip hasContent
  constructor
  · intro h
    have h1 : (s.dropWhile isWs).reverse.dropWhile isWs = [] := by
      simpa using congrArg List.reverse h
    have h3 : ∀ c ∈ s.dropWhile isWs, isWs c := by
      intro c hc
      exact List.dropWhile_eq_nil_iff.mp h1 c (by simpa using hc)
    have h4 : ∀ c ∈ s, isWs c := by
      intro c hc
      rw [← List.takeWhile_append_dropWhile isWs s] at hc
      rcases List.mem_append.mp hc with h | h
      · exact List.mem_takeWhile_imp h
      · exact h3 c h
    simp only [List.any_eq_false]
    intro c hc
    simp [h4 c hc]
  · intro h
    have h4 : ∀ c ∈ s, isWs c := by
      simp only [List.any_eq_false] at h
      intro c hc
      simpa using h c hc
    have h3 : ∀ c ∈ s.dropWhile isWs, isWs c := fun c hc =>
      h4 c ((List.dropWhile_sublist _).subset hc)
    have h2 : (s.dropWhile isWs).reverse.dropWhile isWs = [] :=
      List.dropWhile_eq_nil_iff.mpr (by intro c hc; exact h3 c (by simpa using hc))
    simp [h2]

theorem hasContent_append (a b : Str) :
    hasContent (a ++ b) = (hasContent a || hasContent b) := by
  simp [hasContent]

theorem hasContent_joinLines (ls : List Str) :
    hasContent (joinLines ls) = ls.any hasContent := by
  induction ls with
  | nil => simp [joinLines, hasContent]
  | cons l ls ih =>
    cases ls with
    | nil => simp [joinLines]
    | cons l2 ls2 =>
      rw [joinLines, List.any_cons, ← ih]
      have : hasContent (l ++ '\n' :: joinLines (l2 :: ls2))
          = (hasContent l || hasContent ('\n' :: joinLines (l2 :: ls2))) :=
        hasContent_append _ _
      rw [this]
      have hnl : hasContent ('\n' :: joinLines (l2 :: ls2))
          = hasContent (joinLines (l2 :: ls2)) := by
        simp [hasContent, isWs]
      rw [hnl]

/-! ## Data model of rebuild_lotr.py -/

/-- A bounding box (x0, y0, x1, y1) in page coordinates. -/
structure BBox where
  x0 : ℚ
  y0 : ℚ
  x1 : ℚ
  y1 : ℚ
deriving DecidableEq, Repr

/-- The TextObject dataclass of rebuild_lotr.py. -/
structure TextObject where
  text : Str
  bbox : BBox
  fontsize : ℚ
  fontname : Str
  page_num : ℕ
deriving DecidableEq, Repr

/-- The ImageObject dataclass of rebuild_lotr.py. -/
structure ImageObject where
  image_bytes : List ℕ
  bbox : BBox
  xref : ℤ
  page_num : ℕ
  width : Option ℕ
  height : Option ℕ
  ext : Option Str
deriving DecidableEq, Repr

/-- An entry of a page object list: a TextObject or an ImageObject. -/
inductive PageObject
  | text (t : TextObject)
  | image (im : ImageObject)
deriving DecidableEq, Repr

/-- A span of a layout line: text with optional size and font keys. -/
structure Span where
  text : Str
  size : Option ℚ
  font : Option Str
deriving DecidableEq, Repr

/-- A layout line: a list of spans. -/
structure Line where
  spans : List Span
deriving DecidableEq, Repr

/-- The value of the image key of an image block: a dict with an optional
xref key, a raw int xref, or something else entirely. -/
inductive ImgRef
  | absent
  | dictRef (x : Option ℤ)
  | intRef (x : ℤ)
deriving DecidableEq, Repr

/-- A layout block as returned inside page.get_text, with its optional
type key, optional bbox key, line list and image reference. -/
structure Block where
  btype : Option ℤ
  bbox : Option BBox
  lines : List Line
  img : ImgRef
deriving DecidableEq, Repr

/-- Outcome of doc.extract_image on one xref: an exception, a falsy return
value, or a dict with image bytes and optional width, height and ext keys. -/
inductive ExtractOutcome
  | exn
  | falsy
  | ok (image : List ℕ) (width : Option ℕ) (height : Option ℕ) (ext : Option Str)
deriving DecidableEq, Repr

/-- Outcome of page.get_text on a page: a block list, an exception (the code
then works on an empty dict), or a non-dict value (the code then skips the
rest of the page). -/
inductive TextDictResult
  | ok (blocks : List Block)
  | exn
  | nonDict
deriving DecidableEq, Repr

/-- A page of the document: layout result, get_images result (none models an
exception), pixmap render result (none models an exception) and page rect. -/
structure Page where
  textDict : TextDictResult
  images : Option (List ℤ)
  pixmap : Option (List ℕ × ℕ × ℕ)
  rectW : ℚ
  rectH : ℚ
deriving DecidableEq, Repr

/-- A PDF document: its pages and its xref to image extraction behaviour. -/
structure PdfDoc where
  pages : List Page
  extractImage : ℤ → ExtractOutcome

/-- The block list the page loop works on, or none when get_text returned a
non-dict value and the page body is skipped early. -/
def pageBlocks : TextDictResult → Option (List Block)
  | .ok bs => some bs
  | .exn => some []
  | .nonDict => none

/-! ## extract_objects -/

/-- Text of one layout line: the concatenation of its span texts. -/
def lineText (l : Line) : Str := (l.spans.map Span.text).flatten

/-- extract_text_from_block of rebuild_lotr.py: keep the lines whose text is
non-blank, join them with newlines and strip; none when no line is kept. -/
def extract_text_from_block (b : Block) : Option Str :=
  let ls := b.lines.filterMap fun l =>
    let t := lineText l
    if strip t ≠ [] then some t else none
  if ls = [] then none else some (strip (joinLines ls))

/-- Default font size of get_font_info_from_block. -/
def defaultFontsize : ℚ := 11

/-- Default font name of get_font_info_from_block. -/
def defaultFontname : Str := "Times-Roman".toList

/-- One span update step of get_font_info_from_block. -/
def fontStep (acc : ℚ × Str) (s : Span) : ℚ × Str :=
  (s.size.getD acc.1, s.font.getD acc.2)

/-- The span scan of get_font_info_from_block, with its early break as soon
as both the size and the name differ from the defaults. -/
def fontScan : (ℚ × Str) → List Span → ℚ × Str
  | acc, [] => acc
  | acc, s :: ss =>
    let acc2 := fontStep acc s
    if acc2.1 ≠ defaultFontsize ∧ acc2.2 ≠ defaultFontname then acc2
    else fontScan acc2 ss

/-- get_font_info_from_block of rebuild_lotr.py. -/
def get_font_info_from_block (b : Block) : ℚ × Str :=
  fontScan (defaultFontsize, defaultFontname) (b.lines.map Line.spans).flatten

/-- The xref extracted from the image key of a block: the xref key for a
dict value, the value itself for an int value, none otherwise. -/
def blockXref : ImgRef → Option ℤ
  | .dictRef x => x
  | .intRef x => some x
  | .absent => none

/-- The bbox of a block with the page rect as default. -/
def blockBBox (b : Block) (rw rh : ℚ) : BBox :=
  b.bbox.getD ⟨0, 0, rw, rh⟩

/-- The default jpg extension string. -/
def jpgStr : Str := "jpg".toList

/-- The png extension string. -/
def pngStr : Str := "png".toList

/-- Processing of one layout block by extract_objects: the optionally
emitted object and the updated seen xref set. -/
def blockDelta (doc : PdfDoc) (pno : ℕ) (rw rh : ℚ) (seen : List ℤ)
    (b : Block) : Option PageObject × List ℤ :=
  if b.btype = some 0 then
    match extract_text_from_block b with
    | some t =>
      if t ≠ [] then
        (some (.text ⟨t, blockBBox b rw rh, (get_font_info_from_block b).1,
          (get_font_info_from_block b).2, pno⟩), seen)
      else (none, seen)
    | none => (none, seen)
  else if b.btype = some 1 then
    match blockXref b.img with
    | some x =>
      if x ≠ 0 ∧ x ∉ seen then
        match doc.extractImage x with
        | .ok img w h e =>
          if img ≠ [] then
            (some (.image ⟨img, blockBBox b rw rh, x, pno, w, h,
              some (e.getD jpgStr)⟩), x :: seen)
          else (none, seen)
        | .exn => (none, seen)
        | .falsy => (none, seen)
      else (none, seen)
    | none => (none, seen)
  else (none, seen)

/-- One fold step over the block list of a page. -/
def blockStep (doc : PdfDoc) (pno : ℕ) (rw rh : ℚ)
    (acc : List PageObject × List ℤ) (b : Block) : List PageObject × List ℤ :=
  let d := blockDelta doc pno rw rh acc.2 b
  (acc.1 ++ d.1.toList, d.2)

/-- The bbox search of the get_images fallback: the first type 1 block whose
image reference matches the xref, else the page rect. -/
def refMatches (r : ImgRef) (x : ℤ) : Bool :=
  match r with
  | .dictRef y => y = some x
  | .intRef y => y = x
  | .absent => false

/-- Bbox lookup for a fallback image. -/
def findImageBBox (blocks : List Block) (x : ℤ) (rw rh : ℚ) : BBox :=
  match blocks.find? (fun b => b.btype = some 1 && refMatches b.img x) with
  | some b => blockBBox b rw rh
  | none => ⟨0, 0, rw, rh⟩

/-- Processing of one xref of the get_images fallback loop. -/
def fallbackDelta (doc : PdfDoc) (pno : ℕ) (blocks : List Block) (rw rh : ℚ)
    (seen : List ℤ) (x : ℤ) : Option PageObject × List ℤ :=
  if x ∈ seen then (none, seen)
  else
    match doc.extractImage x with
    | .ok img w h e =>
      if img ≠ [] then
        (some (.image ⟨img, findImageBBox blocks x rw rh, x, pno, w, h,
          some (e.getD jpgStr)⟩), x :: seen)
      else (none, seen)
    | _ => (none, seen)

/-- One fold step over the get_images list of a page. -/
def fallbackStep (doc : PdfDoc) (pno : ℕ) (blocks : List Block) (rw rh : ℚ)
    (acc : List PageObject × List ℤ) (x : ℤ) : List PageObject × List ℤ :=
  let d := fallbackDelta doc pno blocks rw rh acc.2 x
  (acc.1 ++ d.1.toList, d.2)

/-- The optional full page image appended when extract_page_images is set. -/
def pageImageObjs (epi : Bool) (pno : ℕ) (p : Page) : List PageObject :=
  if epi then
    match p.pixmap with
    | some (bytes, w, h) =>
      [.image ⟨bytes, ⟨0, 0, p.rectW, p.rectH⟩, -1, pno, some w, some h, some pngStr⟩]
    | none => []
  else []

/-- Processing of one page by extract_objects: block loop, get_images
fallback loop, optional page image; threads the seen xref set. -/
def processPage (doc : PdfDoc) (epi : Bool) (pno : ℕ) (p : Page)
    (seen : List ℤ) : List PageObject × List ℤ :=
  match pageBlocks p.textDict with
  | none => ([], seen)
  | some blocks =>
    let a1 := blocks.foldl (blockStep doc pno p.rectW p.rectH) ([], seen)
    let a2 := match p.images with
      | none => a1
      | some xs => xs.foldl (fallbackStep doc pno blocks p.rectW p.rectH) a1
    (a2.1 ++ pageImageObjs epi pno p, a2.2)

/-- The page loop of extract_objects over the remaining pages, starting at
page number pno with the given seen xref set. -/
def extractPages (doc : PdfDoc) (epi : Bool) :
    List Page → ℕ → List ℤ → List (ℕ × List PageObject)
  | [], _, _ => []
  | p :: ps, pno, seen =>
    let d := processPage doc epi pno p seen
    (pno, d.1) :: extractPages doc epi ps (pno + 1) d.2

/-- The error raised by extract_objects. -/
inductive ExtractError
  | fileNotFound
deriving DecidableEq, Repr

/-- extract_objects of rebuild_lotr.py, over a file existence predicate and
a document loading function: FileNotFoundError when the path does not exist,
else the page indexed object lists. -/
def extract_objects (fs : String → Bool) (docOf : String → PdfDoc)
    (src_path : String) (extract_page_images : Bool) :
    Except ExtractError (List (ℕ × List PageObject)) :=
  if fs src_path = false then .error .fileNotFound
  else
    let doc := docOf src_path
    .ok (extractPages doc extract_page_images doc.pages 0 [])

/-! ## Key structure of the extract_objects result -/

theorem extractPages_map_fst (doc : PdfDoc) (epi : Bool) :
    ∀ (ps : List Page) (pno : ℕ) (seen : List ℤ),
      (extractPages doc epi ps pno seen).map Prod.fst = List.range' pno ps.length
  | [], _, _ => by simp [extractPages]
  | p :: ps, pno, seen => by
    rw [extractPages]
    simp only [List.map_cons, List.length_cons]
    rw [extractPages_map_fst doc epi ps (pno + 1) _]
    rw [List.range'_succ pno ps.length 1]

/-- C8: extract_objects raises FileNotFoundError when the source path does
not exist, whatever the document behind the path would have contained, and
otherwise returns a dictionary whose key list is exactly the page numbers
0 .. page_count - 1 in order, each mapped to a possibly empty list whose
entries are TextObject or ImageObject values. -/
theorem extract_objects_error_and_keys (fs : String → Bool)
    (docOf : String → PdfDoc) (path : String) (epi : Bool) :
    (fs path = false → extract_objects fs docOf path epi = .error .fileNotFound)
    ∧ (fs path = true →
        ∃ data, extract_objects fs docOf path epi = .ok data
          ∧ data.map Prod.fst = List.range (docOf path).pages.length
          ∧ ∀ pr ∈ data, ∀ o ∈ pr.2, (∃ t, o = .text t) ∨ (∃ im, o = .image im)) := by
  constructor
  · intro h
    simp [extract_objects, h]
  · intro h
    refine ⟨extractPages (docOf path) epi (docOf path).pages 0 [], ?_, ?_, ?_⟩
    · simp [extract_objects, h]
    · rw [extractPages_map_fst, List.range_eq_range']
    · intro pr _ o _
      cases o with
      | text t => exact Or.inl ⟨t, rfl⟩
      | image im => exact Or.inr ⟨im, rfl⟩

/-- Witness for C8: a concrete missing file gives FileNotFoundError. -/
theorem extract_objects_error_and_keys_witness :
    extract_objects (fun _ => false) (fun _ => ⟨[], fun _ => .exn⟩) "missing.pdf" false
      = .error .fileNotFound :=
  (extract_objects_error_and_keys (fun _ => false) (fun _ => ⟨[], fun _ => .exn⟩)
    "missing.pdf" false).1 rfl

/-! ## Xref deduplication -/

/-- The xrefs of the embedded image objects of a list, excluding the page
image marker -1. -/
def newXrefs (objs : List PageObject) : List ℤ :=
  objs.filterMap fun o =>
    match o with
    | .image im => if im.xref ≠ -1 then some im.xref else none
    | .text _ => none

/-- All embedded image xrefs of an extract_objects result. -/
def allNewXrefs (data : List (ℕ × List PageObject)) : List ℤ :=
  (data.map fun pr => newXrefs pr.2).flatten

theorem newXrefs_append (a b : List PageObject) :
    newXrefs (a ++ b) = newXrefs a ++ newXrefs b := by
  simp [newXrefs]

/-- Invariant threading the seen xref set through the page processing: the
xrefs emitted since the seen set was seen0 are distinct, are recorded in the
current seen set, were not in seen0, the seen set only grows, and everything
added to the seen set came from an emitted object or is the page marker. -/
def SeenInv (seen0 : List ℤ) (objs : List PageObject) (seen : List ℤ) : Prop :=
  (newXrefs objs).Nodup
  ∧ (∀ x ∈ newXrefs objs, x ∈ seen ∧ x ∉ seen0)
  ∧ (∀ y ∈ seen0, y ∈ seen)
  ∧ (∀ y ∈ seen, y ∈ newXrefs objs ∨ y ∈ seen0 ∨ y = -1)

theorem seenInv_refl (seen : List ℤ) : SeenInv seen [] seen := by
  refine ⟨by simp [newXrefs], by simp [newXrefs], fun y hy => hy, fun y hy => ?_⟩
  exact Or.inr (Or.inl hy)

/-- Shape of one block or fallback step: nothing emitted and the seen set
unchanged, a text object emitted, or an image object with a fresh xref
emitted and its xref pushed on the seen set. -/
def DeltaSpec (seen : List ℤ) (d : Option PageObject × List ℤ) : Prop :=
  (d.1 = none ∧ d.2 = seen)
  ∨ (∃ t, d.1 = some (.text t) ∧ d.2 = seen)
  ∨ (∃ im, d.1 = some (.image im) ∧ im.xref ∉ seen ∧ d.2 = im.xref :: seen)

theorem blockDelta_spec (doc : PdfDoc) (pno : ℕ) (rw rh : ℚ) (seen : List ℤ)
    (b : Block) : DeltaSpec seen (blockDelta doc pno rw rh seen b) := by
  unfold DeltaSpec blockDelta
  split
  · split
    · split
      · exact Or.inr (Or.inl ⟨_, rfl, rfl⟩)
      · exact Or.inl ⟨rfl, rfl⟩
    · exact Or.inl ⟨rfl, rfl⟩
  · split
    · split
      · split
        · rename_i hcond
          split
          · split
            · exact Or.inr (Or.inr ⟨_, rfl, hcond.2, rfl⟩)
            · exact Or.inl ⟨rfl, rfl⟩
          · exact Or.inl ⟨rfl, rfl⟩
          · exact Or.inl ⟨rfl, rfl⟩
        · exact Or.inl ⟨rfl, rfl⟩
      · exact Or.inl ⟨rfl, rfl⟩
    · exact Or.inl ⟨rfl, rfl⟩

theorem fallbackDelta_spec (doc : PdfDoc) (pno : ℕ) (blocks : List Block)
    (rw rh : ℚ) (seen : List ℤ) (x : ℤ) :
    DeltaSpec seen (fallbackDelta doc pno blocks rw rh seen x) := by
  unfold DeltaSpec fallbackDelta
  split
  · exact Or.inl ⟨rfl, rfl⟩
  · rename_i hs
    split
    · split
      · exact Or.inr (Or.inr ⟨_, rfl, hs, rfl⟩)
      · exact Or.inl ⟨rfl, rfl⟩
    · exact Or.inl ⟨rfl, rfl⟩

/-- One delta shaped step preserves the seen invariant. -/
theorem seenInv_step (seen0 : List ℤ) (objs : List PageObject) (seen : List ℤ)
    (d : Option PageObject × List ℤ) (hd : DeltaSpec seen d)
    (hinv : SeenInv seen0 objs seen) :
    SeenInv seen0 (objs ++ d.1.toList) d.2 := by
  obtain ⟨hnd, hmem, hgrow, hback⟩ := hinv
  rcases hd with ⟨h1, h2⟩ | ⟨t, h1, h2⟩ | ⟨im, h1, hfresh, h2⟩
  · rw [h1, h2]
    exact ⟨by simpa [newXrefs_append, newXrefs] using hnd,
      by simpa [newXrefs_append, newXrefs] using hmem, hgrow,
      by simpa [newXrefs_append, newXrefs] using hback⟩
  · rw [h1, h2]
    refine ⟨?_, ?_, hgrow, ?_⟩
    · simpa [newXrefs_append, newXrefs] using hnd
    · simpa [newXrefs_append, newXrefs] using hmem
    · simpa [newXrefs_append, newXrefs] using hback
  · rw [h1, h2]
    have htl : (some (PageObject.image im)).toList = [PageObject.image im] := rfl
    rw [htl]
    by_cases hm : im.xref = -1
    · have hx : newXrefs (objs ++ [PageObject.image im]) = newXrefs objs := by
        simp [newXrefs_append, newXrefs, hm]
      refine ⟨by rw [hx]; exact hnd, ?_, ?_, ?_⟩
      · intro x hxm
        rw [hx] at hxm
        exact ⟨List.mem_cons_of_mem _ (hmem x hxm).1, (hmem x hxm).2⟩
      · intro y hy
        exact List.mem_cons_of_mem _ (hgrow y hy)
      · intro y hy
        rw [hx]
        rcases List.mem_cons.mp hy with h | h
        · exact Or.inr (Or.inr (h.trans hm))
        · exact hback y h
    · have hx : newXrefs (objs ++ [PageObject.image im])
          = newXrefs objs ++ [im.xref] := by
        simp [newXrefs_append, newXrefs, hm]
      have hxnotin : im.xref ∉ newXrefs objs := fun hin => hfresh (hmem _ hin).1
      refine ⟨?_, ?_, ?_, ?_⟩
      · rw [hx]
        exact hnd.append (List.nodup_singleton _)
          (by intro a ha hb; simp at hb; exact hxnotin (hb ▸ ha))
      · intro x hxm
        rw [hx] at hxm
        rcases List.mem_append.mp hxm with h | h
        · exact ⟨List.mem_cons_of_mem _ (hmem x h).1, (hmem x h).2⟩
        · simp at h
          subst h
          exact ⟨List.mem_cons_self _ _, fun hin => hfresh (hgrow _ hin)⟩
      · intro y hy
        exact List.mem_cons_of_mem _ (hgrow y hy)
      · intro y hy
        rw [hx]
        rcases List.mem_cons.mp hy with h | h
        · subst h
          exact Or.inl (List.mem_append.mpr (Or.inr (by simp)))
        · rcases hback y h with h2 | h2 | h2
          · exact Or.inl (List.mem_append.mpr (Or.inl h2))
          · exact Or.inr (Or.inl h2)
          · exact Or.inr (Or.inr h2)

/-- The block loop of a page preserves the seen invariant. -/
theorem seenInv_blockFold (doc : PdfDoc) (pno : ℕ) (rw rh : ℚ) (seen0 : List ℤ) :
    ∀ (bs : List Block) (acc : List PageObject × List ℤ),
      SeenInv seen0 acc.1 acc.2 →
      SeenInv seen0 (bs.foldl (blockStep doc pno rw rh) acc).1
        (bs.foldl (blockStep doc pno rw rh) acc).2
  | [], acc, h => h
  | b :: bs, acc, h => by
    rw [List.foldl_cons]
    exact seenInv_blockFold doc pno rw rh seen0 bs _
      (seenInv_step seen0 acc.1 acc.2 _ (blockDelta_spec doc pno rw rh acc.2 b) h)

/-- The fallback loop of a page preserves the seen invariant. -/
theorem seenInv_fallbackFold (doc : PdfDoc) (pno : ℕ) (blocks : List Block)
    (rw rh : ℚ) (seen0 : List ℤ) :
    ∀ (xs : List ℤ) (acc : List PageObject × List ℤ),
      SeenInv seen0 acc.1 acc.2 →
      SeenInv seen0 (xs.foldl (fallbackStep doc pno blocks rw rh) acc).1
        (xs.foldl (fallbackStep doc pno blocks rw rh) acc).2
  | [], acc, h => h
  | x :: xs, acc, h => by
    rw [List.foldl_cons]
    exact seenInv_fallbackFold doc pno blocks rw rh seen0 xs _
      (seenInv_step seen0 acc.1 acc.2 _
        (fallbackDelta_spec doc pno blocks rw rh acc.2 x) h)

theorem newXrefs_pageImage (epi : Bool) (pno : ℕ) (p : Page) :
    newXrefs (pageImageObjs epi pno p) = [] := by
  unfold pageImageObjs
  split
  · split
    · simp [newXrefs]
    · simp [newXrefs]
  · simp [newXrefs]

/-- Processing one page preserves the seen invariant relative to the seen
set it started from. -/
theorem seenInv_processPage (doc : PdfDoc) (epi : Bool) (pno : ℕ) (p : Page)
    (seen : List ℤ) :
    SeenInv seen (processPage doc epi pno p seen).1 (processPage doc epi pno p seen).2 := by
  unfold processPage
  split
  · exact seenInv_refl seen
  · rename_i blocks hblocks
    have h1 := seenInv_blockFold doc pno p.rectW p.rectH seen blocks ([], seen)
      (seenInv_refl seen)
    set a1 := blocks.foldl (blockStep doc pno p.rectW p.rectH) ([], seen) with ha1
    have h2 : SeenInv seen
        (match p.images with
          | none => a1
          | some xs => xs.foldl (fallbackStep doc pno blocks p.rectW p.rectH) a1).1
        (match p.images with
          | none => a1
          | some xs => xs.foldl (fallbackStep doc pno blocks p.rectW p.rectH) a1).2 := by
      cases p.images with
      | none => exact h1
      | some xs => exact seenInv_fallbackFold doc pno blocks p.rectW p.rectH seen xs a1 h1
    obtain ⟨hnd, hmem, hgrow, hback⟩ := h2
    refine ⟨?_, ?_, hgrow, ?_⟩
    · simpa [newXrefs_append, newXrefs_pageImage] using hnd
    · simpa [newXrefs_append, newXrefs_pageImage] using hmem
    · intro y hy
      rw [newXrefs_append, newXrefs_pageImage, List.append_nil]
      exact hback y hy

/-- Across the page loop, the emitted xrefs stay distinct and disjoint from
the starting seen set. -/
theorem extractPages_nodup (doc : PdfDoc) (epi : Bool) :
    ∀ (ps : List Page) (pno : ℕ) (seen : List ℤ),
      (allNewXrefs (extractPages doc epi ps pno seen)).Nodup
      ∧ ∀ x ∈ allNewXrefs (extractPages doc epi ps pno seen), x ∉ seen
  | [], _, _ => by simp [extractPages, allNewXrefs]
  | p :: ps, pno, seen => by
    rw [extractPages]
    have hpage := seenInv_processPage doc epi pno p seen
    obtain ⟨hnd, hmem, hgrow, _⟩ := hpage
    set d := processPage doc epi pno p seen with hd
    have htail := extractPages_nodup doc epi ps (pno + 1) d.2
    have hall : allNewXrefs ((pno, d.1) :: extractPages doc epi ps (pno + 1) d.2)
        = newXrefs d.1 ++ allNewXrefs (extractPages doc epi ps (pno + 1) d.2) := by
      simp [allNewXrefs]
    rw [hall]
    constructor
    · refine hnd.append htail.1 ?_
      intro a ha hb
      exact htail.2 a hb (hmem a ha).1
    · intro x hx
      rcases List.mem_append.mp hx with h | h
      · exact (hmem x h).2
      · intro hxs
        exact htail.2 x h (hgrow x hxs)

/-- A fallback image lookup that must succeed: the page body is reached, the
xref is listed by page.get_images and doc.extract_image returns data. -/
def goodFallback (doc : PdfDoc) (p : Page) (x : ℤ) : Bool :=
  (pageBlocks p.textDict).isSome
  && (match p.images with
      | some xs => xs.contains x
      | none => false)
  && (match doc.extractImage x with
      | .ok img _ _ _ => !img.isEmpty
      | _ => false)

theorem deltaSpec_mono (seen : List ℤ) (d : Option PageObject × List ℤ)
    (h : DeltaSpec seen d) : ∀ x ∈ seen, x ∈ d.2 := by
  rcases h with ⟨_, h2⟩ | ⟨t, _, h2⟩ | ⟨im, _, _, h2⟩ <;> rw [h2]
  · exact fun x hx => hx
  · exact fun x hx => hx
  · exact fun x hx => List.mem_cons_of_mem _ hx

/-- The fallback loop only grows the seen set. -/
theorem fold_seen_mono (doc : PdfDoc) (pno : ℕ) (blocks : List Block)
    (rw rh : ℚ) :
    ∀ (xs : List ℤ) (acc : List PageObject × List ℤ) (x : ℤ), x ∈ acc.2 →
      x ∈ (xs.foldl (fallbackStep doc pno blocks rw rh) acc).2
  | [], _, _, h => h
  | y :: xs, acc, x, h => by
    rw [List.foldl_cons]
    exact fold_seen_mono doc pno blocks rw rh xs _ x
      (deltaSpec_mono acc.2 _ (fallbackDelta_spec doc pno blocks rw rh acc.2 y) x h)

/-- After the fallback loop has run over a list containing a xref for which
doc.extract_image returns non-empty data, the xref is in the seen set. -/
theorem fallback_mem_seen (doc : PdfDoc) (pno : ℕ) (blocks : List Block)
    (rw rh : ℚ) (x : ℤ) (img : List ℕ) (w h : Option ℕ) (e : Option Str)
    (hde : doc.extractImage x = .ok img w h e) (himg : img ≠ []) :
    ∀ (xs : List ℤ) (acc : List PageObject × List ℤ), x ∈ xs →
      x ∈ (xs.foldl (fallbackStep doc pno blocks rw rh) acc).2
  | [], _, hmem => absurd hmem (List.not_mem_nil x)
  | y :: xs, acc, hmem => by
    rw [List.foldl_cons]
    by_cases hxy : x = y
    · subst hxy
      have hin : x ∈ (fallbackStep doc pno blocks rw rh acc x).2 := by
        unfold fallbackStep fallbackDelta
        by_cases hmem2 : x ∈ acc.2
        · simp only [if_pos hmem2]
          exact hmem2
        · simp only [if_neg hmem2, hde, if_pos himg]
          exact List.mem_cons_self _ _
      exact fold_seen_mono doc pno blocks rw rh xs _ x hin
    · have hmem2 : x ∈ xs := by
        rcases List.mem_cons.mp hmem with hcase | hcase
        · exact absurd hcase hxy
        · exact hcase
      exact fallback_mem_seen doc pno blocks rw rh x img w h e hde himg xs _ hmem2

/-- A good fallback xref of a page ends in the seen set of that page. -/
theorem processPage_mem_seen (doc : PdfDoc) (epi : Bool) (pno : ℕ) (p : Page)
    (seen : List ℤ) (x : ℤ) (hg : goodFallback doc p x = true) :
    x ∈ (processPage doc epi pno p seen).2 := by
  unfold goodFallback at hg
  simp only [Bool.and_eq_true] at hg
  obtain ⟨⟨hsome, himgs⟩, hext⟩ := hg
  unfold processPage
  split
  · rename_i hnone
    rw [hnone] at hsome
    simp at hsome
  · rename_i blocks hblocks
    cases hpi : p.images with
    | none => rw [hpi] at himgs; simp at himgs
    | some xs =>
      rw [hpi] at himgs
      have hx : x ∈ xs := by
        simpa using himgs
      cases hde : doc.extractImage x with
      | exn => rw [hde] at hext; simp at hext
      | falsy => rw [hde] at hext; simp at hext
      | ok img w h e =>
        rw [hde] at hext
        have himg : img ≠ [] := by
          simpa using hext
        simp only [hpi]
        exact fallback_mem_seen doc pno blocks p.rectW p.rectH x img w h e hde himg xs _ hx

/-- A good fallback xref of some processed page is either emitted, already
seen when the loop started, or the page marker. -/
theorem extractPages_good_mem (doc : PdfDoc) (epi : Bool) (x : ℤ) :
    ∀ (ps : List Page) (pno : ℕ) (seen : List ℤ),
      (∃ p ∈ ps, goodFallback doc p x = true) →
      x ∈ allNewXrefs (extractPages doc epi ps pno seen) ∨ x ∈ seen ∨ x = -1
  | [], _, _, hex => by
    obtain ⟨p, hp, _⟩ := hex
    exact absurd hp (List.not_mem_nil p)
  | p :: ps, pno, seen, hex => by
    rw [extractPages]
    have hpage := seenInv_processPage doc epi pno p seen
    obtain ⟨_, _, _, hback⟩ := hpage
    set d := processPage doc epi pno p seen with hd
    have hall : allNewXrefs ((pno, d.1) :: extractPages doc epi ps (pno + 1) d.2)
        = newXrefs d.1 ++ allNewXrefs (extractPages doc epi ps (pno + 1) d.2) := by
      simp [allNewXrefs]
    rw [hall]
    obtain ⟨q, hq, hgood⟩ := hex
    rcases List.mem_cons.mp hq with hcase | hcase
    · subst hcase
      have hmem := processPage_mem_seen doc epi pno q seen x hgood
      rcases hback x hmem with hc | hc | hc
      · exact Or.inl (List.mem_append.mpr (Or.inl hc))
      · exact Or.inr (Or.inl hc)
      · exact Or.inr (Or.inr hc)
    · have := extractPages_good_mem doc epi x ps (pno + 1) d.2 ⟨q, hcase, hgood⟩
      rcases this with hc | hc | hc
      · exact Or.inl (List.mem_append.mpr (Or.inr hc))
      · rcases hback x hc with h2 | h2 | h2
        · exact Or.inl (List.mem_append.mpr (Or.inl h2))
        · exact Or.inr (Or.inl h2)
        · exact Or.inr (Or.inr h2)
      · exact Or.inr (Or.inr hc)

/-- C3: in any dictionary returned by extract_objects, no two ImageObject
entries across all pages whose xref is not the page image marker -1 carry
the same xref; and an embedded image listed by page.get_images of a reached
page, with extractable non-empty data, appears exactly once, regardless of
how many pages list it or whether a block also references it. -/
theorem extract_objects_xref_dedup (fs : String → Bool) (docOf : String → PdfDoc)
    (path : String) (epi : Bool) (data : List (ℕ × List PageObject))
    (h : extract_objects fs docOf path epi = .ok data) :
    (allNewXrefs data).Nodup
    ∧ ∀ x : ℤ, x ≠ -1 →
        (∃ p ∈ (docOf path).pages, goodFallback (docOf path) p x = true) →
        (allNewXrefs data).count x = 1 := by
  by_cases hfs : fs path = false
  · rw [extract_objects, if_pos hfs] at h
    exact absurd h (by simp)
  · rw [extract_objects, if_neg hfs] at h
    have hdata : data = extractPages (docOf path) epi (docOf path).pages 0 [] := by
      injection h with h2
      exact h2.symm
    subst hdata
    refine ⟨(extractPages_nodup (docOf path) epi (docOf path).pages 0 []).1, ?_⟩
    intro x hx1 hgood
    have hmem := extractPages_good_mem (docOf path) epi x (docOf path).pages 0 [] hgood
    rcases hmem with hc | hc | hc
    · exact List.count_eq_one_of_mem
        (extractPages_nodup (docOf path) epi (docOf path).pages 0 []).1 hc
    · exact absurd hc (List.not_mem_nil x)
    · exact absurd hc hx1

/-- Witness for C3: a one page document whose page lists xref 5 twice in
get_images yields exactly one extracted image object with xref 5. -/
theorem extract_objects_xref_dedup_witness :
    (allNewXrefs [(0, [PageObject.image
        ⟨[1, 2], ⟨0, 0, 10, 10⟩, 5, 0, none, none, some jpgStr⟩])]).count 5 = 1 := by
  have h := extract_objects_xref_dedup (fun _ => true)
    (fun _ => ⟨[⟨.ok [], some [5, 5], none, 10, 10⟩],
      fun z => if z = 5 then .ok [1, 2] none none none else .exn⟩)
    "f.pdf" false
    [(0, [PageObject.image ⟨[1, 2], ⟨0, 0, 10, 10⟩, 5, 0, none, none, some jpgStr⟩])]
    (by rfl)
  exact h.2 5 (by decide)
    ⟨⟨.ok [], some [5, 5], none, 10, 10⟩, by simp, by rfl⟩

/-! ## Block classification -/

/-- The joined span text of a block: all line texts joined by newlines. -/
def blockText (b : Block) : Str := joinLines (b.lines.map lineText)

theorem mem_kept_hasContent (b : Block) (t : Str)
    (ht : t ∈ b.lines.filterMap fun l =>
      if strip (lineText l) ≠ [] then some (lineText l) else none) :
    hasContent t = true := by
  obtain ⟨l, _, hf⟩ := List.mem_filterMap.mp ht
  by_cases hs : strip (lineText l) ≠ []
  · rw [if_pos hs] at hf
    injection hf with hf
    subst hf
    rcases h : hasContent (lineText l) with _ | _
    · exact absurd ((strip_eq_nil_iff _).mpr h) hs
    · rfl
  · rw [if_neg hs] at hf
    exact absurd hf (by simp)

theorem extract_text_from_block_ne_nil (b : Block) (t : Str)
    (h : extract_text_from_block b = some t) : t ≠ [] := by
  unfold extract_text_from_block at h
  set kept := b.lines.filterMap fun l =>
    if strip (lineText l) ≠ [] then some (lineText l) else none with hkept
  by_cases hk : kept = []
  · rw [if_pos hk] at h
    exact absurd h (by simp)
  · rw [if_neg hk] at h
    injection h with h
    subst h
    obtain ⟨u, hu⟩ := List.exists_mem_of_ne_nil kept hk
    have hc : hasContent (joinLines kept) = true := by
      rw [hasContent_joinLines]
      exact List.any_eq_true.mpr ⟨u, hu, mem_kept_hasContent b u hu⟩
    intro hnil
    rw [strip_eq_nil_iff] at hnil
    rw [hc] at hnil
    exact absurd hnil (by simp)

theorem extract_text_from_block_eq_none_iff (b : Block) :
    extract_text_from_block b = none ↔ strip (blockText b) = [] := by
  unfold extract_text_from_block blockText
  set kept := b.lines.filterMap fun l =>
    if strip (lineText l) ≠ [] then some (lineText l) else none with hkept
  have hiff : kept = [] ↔ ∀ l ∈ b.lines, strip (lineText l) = [] := by
    rw [hkept, List.filterMap_eq_nil_iff]
    constructor
    · intro hall l hl
      have := hall l hl
      by_cases hs : strip (lineText l) ≠ []
      · rw [if_pos hs] at this
        exact absurd this (by simp)
      · simpa using hs
    · intro hall l hl
      rw [if_neg (by simpa using hall l hl)]
  constructor
  · intro h
    have hk : kept = [] := by
      by_cases hk : kept = []
      · exact hk
      · rw [if_neg hk] at h
        exact absurd h (by simp)
    rw [strip_eq_nil_iff, hasContent_joinLines]
    simp only [List.any_eq_false]
    intro s hs
    obtain ⟨l, hl, hls⟩ := List.mem_map.mp hs
    subst hls
    have := (hiff.mp hk) l hl
    rw [strip_eq_nil_iff] at this
    simp [this]
  · intro h
    rw [strip_eq_nil_iff, hasContent_joinLines] at h
    simp only [List.any_eq_false] at h
    have hk : kept = [] := by
      rw [hiff]
      intro l hl
      rw [strip_eq_nil_iff]
      simpa using h (lineText l) (List.mem_map.mpr ⟨l, hl, rfl⟩)
    rw [if_pos hk]

/-- C4: per block classification of extract_objects. A type 0 block yields a
TextObject exactly when its joined span text is non-empty after stripping; a
type 1 block yields an ImageObject exactly when its image reference gives a
truthy xref that is not yet seen and doc.extract_image returns non-empty
bytes for it; a block of any other type contributes nothing and leaves the
seen set unchanged. -/
theorem blockDelta_classification (doc : PdfDoc) (pno : ℕ) (rw rh : ℚ)
    (seen : List ℤ) (b : Block) :
    (b.btype = some 0 →
      ((∃ tob, (blockDelta doc pno rw rh seen b).1 = some (.text tob))
        ↔ strip (blockText b) ≠ []))
    ∧ (b.btype = some 1 →
      ((∃ im, (blockDelta doc pno rw rh seen b).1 = some (.image im))
        ↔ ∃ x img w h e, blockXref b.img = some x ∧ x ≠ 0 ∧ x ∉ seen
            ∧ doc.extractImage x = .ok img w h e ∧ img ≠ []))
    ∧ (b.btype ≠ some 0 → b.btype ≠ some 1 →
        blockDelta doc pno rw rh seen b = (none, seen)) := by
  refine ⟨?_, ?_, ?_⟩
  · intro h0
    unfold blockDelta
    rw [if_pos h0]
    cases hres : extract_text_from_block b with
    | none =>
      simp only
      constructor
      · intro ⟨tob, hto⟩
        exact absurd hto (by simp)
      · intro hne
        exact absurd ((extract_text_from_block_eq_none_iff b).mp hres) hne
    | some t =>
      have htne := extract_text_from_block_ne_nil b t hres
      simp only [if_pos htne]
      constructor
      · intro _
        intro hnil
        rw [← extract_text_from_block_eq_none_iff] at hnil
        rw [hres] at hnil
        exact absurd hnil (by simp)
      · intro _
        exact ⟨_, rfl⟩
  · intro h1
    have h0 : ¬ b.btype = some 0 := by
      rw [h1]
      intro hx
      injection hx with hx
      exact absurd hx (by norm_num)
    unfold blockDelta
    rw [if_neg h0, if_pos h1]
    cases hxr : blockXref b.img with
    | none =>
      constructor
      · intro ⟨im, him⟩
        simp at him
      · intro ⟨x, img, w, h, e, hx, _⟩
        exact absurd hx (by simp)
    | some x =>
      by_cases hc : x ≠ 0 ∧ x ∉ seen
      · cases hde : doc.extractImage x with
        | exn =>
          simp only [if_pos hc, hde]
          constructor
          · intro ⟨im, him⟩
            simp at him
          · intro ⟨x2, img, w, h, e, hx2, _, _, hde2, _⟩
            injection hx2 with hx2
            subst hx2
            rw [hde] at hde2
            exact absurd hde2 (by simp)
        | falsy =>
          simp only [if_pos hc, hde]
          constructor
          · intro ⟨im, him⟩
            simp at him
          · intro ⟨x2, img, w, h, e, hx2, _, _, hde2, _⟩
            injection hx2 with hx2
            subst hx2
            rw [hde] at hde2
            exact absurd hde2 (by simp)
        | ok img w h e =>
          by_cases hi : img ≠ []
          · simp only [if_pos hc, hde, if_pos hi]
            constructor
            · intro _
              exact ⟨x, img, w, h, e, rfl, hc.1, hc.2, hde, hi⟩
            · intro _
              exact ⟨_, rfl⟩
          · simp only [if_pos hc, hde, if_neg hi]
            constructor
            · intro ⟨im, him⟩
              simp at him
            · intro ⟨x2, img2, w2, h2, e2, hx2, _, _, hde2, hne2⟩
              injection hx2 with hx2
              subst hx2
              rw [hde] at hde2
              injection hde2 with hb1 hb2 hb3 hb4
              subst hb1
              exact absurd hne2 hi
      · simp only [if_neg hc]
        constructor
        · intro ⟨im, him⟩
          simp at him
        · intro ⟨x2, img, w, h, e, hx2, hz, hns, _, _⟩
          injection hx2 with hx2
          subst hx2
          exact absurd ⟨hz, hns⟩ hc
  · intro h0 h1
    unfold blockDelta
    rw [if_neg h0, if_neg h1]

/-- Witness for C4: a concrete type 0 block with one non-blank line yields a
TextObject, and a concrete type 2 block yields nothing. -/
theorem blockDelta_classification_witness :
    (∃ tob, (blockDelta ⟨[], fun _ => .exn⟩ 0 1 1 []
        ⟨some 0, none, [⟨[⟨"hi".toList, none, none⟩]⟩], .absent⟩).1 = some (.text tob))
    ∧ blockDelta ⟨[], fun _ => .exn⟩ 0 1 1 []
        ⟨some 2, none, [], .absent⟩ = (none, []) := by
  constructor
  · exact ((blockDelta_classification ⟨[], fun _ => .exn⟩ 0 1 1 []
      ⟨some 0, none, [⟨[⟨"hi".toList, none, none⟩]⟩], .absent⟩).1 rfl).mpr (by decide)
  · exact (blockDelta_classification ⟨[], fun _ => .exn⟩ 0 1 1 []
      ⟨some 2, none, [], .absent⟩).2.2 (by simp) (by simp)

/-! ## create_cheat_sheet ordering -/

/-- The stripped texts of the TextObjects of one page list, in order. -/
def pageTexts (objs : List PageObject) : List Str :=
  objs.filterMap fun o =>
    match o with
    | .text t => some (strip t.text)
    | .image _ => none

/-- Python sorted over the page keys of the objects dictionary. -/
def sortedKeys (data : List (ℕ × List PageObject)) : List ℕ :=
  List.insertionSort (fun a b => a ≤ b) (data.map Prod.fst)

/-- Python dict lookup on the objects dictionary. -/
def lookupPage (data : List (ℕ × List PageObject)) (k : ℕ) : List PageObject :=
  match data.find? (fun pr => pr.1 == k) with
  | some pr => pr.2
  | none => []

/-- The all_text dictionary built by create_cheat_sheet: pages with at least
one text object, visited in sorted key order, each with its stripped texts
joined by newlines. -/
def all_text (data : List (ℕ × List PageObject)) : List (ℕ × Str) :=
  (sortedKeys data).filterMap fun k =>
    let pt := pageTexts (lookupPage data k)
    if pt ≠ [] then some (k, joinLines pt) else none

/-- The page numbers of the reference sections the cheat sheet writes at its
end, in the order they are written: the sorted keys of all_text. -/
def referencePages (data : List (ℕ × List PageObject)) : List ℕ :=
  List.insertionSort (fun a b => a ≤ b) ((all_text data).map Prod.fst)

theorem all_text_keys_aux (data : List (ℕ × List PageObject)) :
    ∀ l : List ℕ,
      ((l.filterMap fun k =>
        let pt := pageTexts (lookupPage data k)
        if pt ≠ [] then some (k, joinLines pt) else none).map Prod.fst)
      = l.filter fun k => !(pageTexts (lookupPage data k)).isEmpty
  | [] => rfl
  | k :: l => by
    by_cases hp : pageTexts (lookupPage data k) ≠ []
    · have hb : (!(pageTexts (lookupPage data k)).isEmpty) = true := by
        simpa [List.isEmpty_iff] using hp
      simp only [List.filterMap_cons, List.filter_cons, hb, if_pos hp]
      simp only [List.map_cons]
      rw [all_text_keys_aux data l]
      simp
    · have hb : (!(pageTexts (lookupPage data k)).isEmpty) = false := by
        simpa [List.isEmpty_iff] using hp
      simp only [List.filterMap_cons, List.filter_cons, hb, if_neg hp]
      rw [all_text_keys_aux data l]
      simp

theorem all_text_keys (data : List (ℕ × List PageObject)) :
    (all_text data).map Prod.fst
      = (sortedKeys data).filter fun k => !(pageTexts (lookupPage data k)).isEmpty :=
  all_text_keys_aux data (sortedKeys data)

theorem lookupPage_mem (data : List (ℕ × List PageObject)) (p : ℕ)
    (hmem : p ∈ data.map Prod.fst) : (p, lookupPage data p) ∈ data := by
  obtain ⟨pr, hpr, hfst⟩ := List.mem_map.mp hmem
  have hsome : (data.find? (fun qr => qr.1 == p)).isSome := by
    rw [List.find?_isSome]
    exact ⟨pr, hpr, by simp [hfst]⟩
  obtain ⟨qr, hq⟩ := Option.isSome_iff_exists.mp hsome
  have hqmem := List.mem_of_find?_eq_some hq
  have hqp : qr.1 = p := by
    have := List.find?_some hq
    simpa using this
  unfold lookupPage
  rw [hq]
  rw [← hqp]
  exact hqmem

theorem lookupPage_eq (data : List (ℕ × List PageObject))
    (hnd : (data.map Prod.fst).Nodup) (pr : ℕ × List PageObject)
    (hpr : pr ∈ data) : lookupPage data pr.1 = pr.2 := by
  induction data with
  | nil => exact absurd hpr (List.not_mem_nil pr)
  | cons qr rest ih =>
    rw [List.map_cons] at hnd
    rcases List.mem_cons.mp hpr with hcase | hcase
    · subst hcase
      unfold lookupPage
      rw [List.find?_cons_of_pos _ (by simp)]
    · have hne : qr.1 ≠ pr.1 := by
        intro heq
        exact (List.nodup_cons.mp hnd).1 (heq ▸ List.mem_map.mpr ⟨pr, hcase, rfl⟩)
      unfold lookupPage
      rw [List.find?_cons_of_neg _ (by simp [hne])]
      exact ih (List.nodup_cons.mp hnd).2 hcase

theorem sortedKeys_perm (data : List (ℕ × List PageObject)) :
    List.Perm (sortedKeys data) (data.map Prod.fst) :=
  List.perm_insertionSort _ _

theorem referencePages_perm (data : List (ℕ × List PageObject)) :
    List.Perm (referencePages data) ((all_text data).map Prod.fst) :=
  List.perm_insertionSort _ _

/-- C7: the extract_objects page loop visits pages in ascending order (the
key list is exactly 0, 1, ..., page_count - 1), and the reference sections
of create_cheat_sheet are written in strictly ascending page order, every
page with non-empty text appearing exactly once. -/
theorem extract_objects_page_order (fs : String → Bool) (docOf : String → PdfDoc)
    (path : String) (epi : Bool) (data : List (ℕ × List PageObject))
    (h : extract_objects fs docOf path epi = .ok data) :
    data.map Prod.fst = List.range (docOf path).pages.length
    ∧ List.Chain' (· < ·) (referencePages data)
    ∧ (∀ p : ℕ, p ∈ referencePages data
        ↔ ∃ pr ∈ data, pr.1 = p ∧ pageTexts pr.2 ≠ [])
    ∧ ∀ p ∈ referencePages data, (referencePages data).count p = 1 := by
  have hkeys : data.map Prod.fst = List.range (docOf path).pages.length := by
    by_cases hfs : fs path = false
    · rw [extract_objects, if_pos hfs] at h
      exact absurd h (by simp)
    · rw [extract_objects, if_neg hfs] at h
      have hdata : data = extractPages (docOf path) epi (docOf path).pages 0 [] := by
        injection h with h2
        exact h2.symm
      subst hdata
      rw [extractPages_map_fst, List.range_eq_range']
  have hnd : (data.map Prod.fst).Nodup := by
    rw [hkeys]
    exact List.nodup_range _
  have hsknd : (sortedKeys data).Nodup :=
    (List.Perm.nodup_iff (sortedKeys_perm data)).mpr hnd
  have hatnd : ((all_text data).map Prod.fst).Nodup := by
    rw [all_text_keys]
    exact hsknd.filter _
  have hrpnd : (referencePages data).Nodup :=
    (List.Perm.nodup_iff (referencePages_perm data)).mpr hatnd
  have hmemiff : ∀ p : ℕ, p ∈ referencePages data
      ↔ ∃ pr ∈ data, pr.1 = p ∧ pageTexts pr.2 ≠ [] := by
    intro p
    rw [List.Perm.mem_iff (referencePages_perm data), all_text_keys,
      List.mem_filter]
    constructor
    · intro ⟨hin, hcond⟩
      have hpk : p ∈ data.map Prod.fst :=
        (List.Perm.mem_iff (sortedKeys_perm data)).mp hin
      refine ⟨(p, lookupPage data p), lookupPage_mem data p hpk, rfl, ?_⟩
      simpa [List.isEmpty_iff] using hcond
    · intro ⟨pr, hpr, hfst, hne⟩
      have hpk : p ∈ data.map Prod.fst := List.mem_map.mpr ⟨pr, hpr, hfst⟩
      refine ⟨(List.Perm.mem_iff (sortedKeys_perm data)).mpr hpk, ?_⟩
      have hl : lookupPage data p = pr.2 := by
        rw [← hfst]
        exact lookupPage_eq data hnd pr hpr
      rw [hl]
      simpa [List.isEmpty_iff] using hne
  refine ⟨hkeys, ?_, hmemiff, ?_⟩
  · have hsorted : List.Sorted (fun a b => a ≤ b) (referencePages data) :=
      List.sorted_insertionSort _ _
    have hpw : (referencePages data).Pairwise (· < ·) := by
      have hand := List.Pairwise.and hsorted hrpnd
      exact hand.imp fun hab => lt_of_le_of_ne hab.1 hab.2
    exact hpw.chain'
  · intro p hp
    exact List.count_eq_one_of_mem hrpnd hp

/-- Witness for C7: a concrete two page document, one page with text and one
without, yields the single reference section of the text page. -/
theorem extract_objects_page_order_witness :
    referencePages [(0, []), (1, [PageObject.text
      ⟨"hi".toList, ⟨0, 0, 1, 1⟩, 11, "f".toList, 1⟩])] = [1] := by
  have h := extract_objects_page_order (fun _ => true)
    (fun _ => ⟨[⟨.nonDict, none, none, 1, 1⟩,
      ⟨.ok [⟨some 0, some ⟨0, 0, 1, 1⟩, [⟨[⟨"hi".toList, some 11, some "f".toList⟩]⟩], .absent⟩],
        none, none, 1, 1⟩], fun _ => .exn⟩)
    "f.pdf" false
    [(0, []), (1, [PageObject.text ⟨"hi".toList, ⟨0, 0, 1, 1⟩, 11, "f".toList, 1⟩])]
    (by rfl)
  have hmem : (1 : ℕ) ∈ referencePages [(0, []), (1, [PageObject.text
      ⟨"hi".toList, ⟨0, 0, 1, 1⟩, 11, "f".toList, 1⟩])] :=
    (h.2.2.1 1).mpr ⟨(1, [PageObject.text ⟨"hi".toList, ⟨0, 0, 1, 1⟩, 11, "f".toList, 1⟩]),
      by simp, rfl, by decide⟩
  revert hmem
  decide

/-! ## categorize_image -/

/-- The guarded aspect division of the card branch of categorize_image. -/
def aspect (width height : ℚ) : ℚ :=
  if 0 < height then width / height else 1

/-- categorize_image of rebuild_lotr.py, continued: the branch cascade over
the bounding box width and height. -/
def categorize_image (im : ImageObject) : String :=
  if 2000 < im.bbox.x1 - im.bbox.x0 ∨ 2000 < im.bbox.y1 - im.bbox.y0 then "map"
  else if (200 < im.bbox.x1 - im.bbox.x0 ∧ im.bbox.x1 - im.bbox.x0 < 500)
      ∧ (200 < im.bbox.y1 - im.bbox.y0 ∧ im.bbox.y1 - im.bbox.y0 < 500) then
    if 3/5 < aspect (im.bbox.x1 - im.bbox.x0) (im.bbox.y1 - im.bbox.y0)
        ∧ aspect (im.bbox.x1 - im.bbox.x0) (im.bbox.y1 - im.bbox.y0) < 7/5 then
      "card"
    else "piece"
  else if (500 < im.bbox.x1 - im.bbox.x0 ∧ im.bbox.x1 - im.bbox.x0 < 1500)
      ∨ (500 < im.bbox.y1 - im.bbox.y0 ∧ im.bbox.y1 - im.bbox.y0 < 1500) then
    "diagram"
  else "other"

/-- C9: categorize_image is total with range exactly the five category
strings; at the boundary sizes excluded by the strict comparisons (width and
height exactly 500, or width exactly 2000 with height exactly 1500) it
returns "other"; and inside the card check branch the height is strictly
positive, so the guarded aspect division never divides by zero. -/
theorem categorize_image_range (im : ImageObject) :
    (categorize_image im = "map" ∨ categorize_image im = "card"
      ∨ categorize_image im = "piece" ∨ categorize_image im = "diagram"
      ∨ categorize_image im = "other")
    ∧ (im.bbox.x1 - im.bbox.x0 = 500 → im.bbox.y1 - im.bbox.y0 = 500 →
        categorize_image im = "other")
    ∧ (im.bbox.x1 - im.bbox.x0 = 2000 → im.bbox.y1 - im.bbox.y0 = 1500 →
        categorize_image im = "other")
    ∧ ((200 < im.bbox.y1 - im.bbox.y0 ∧ im.bbox.y1 - im.bbox.y0 < 500) →
        0 < im.bbox.y1 - im.bbox.y0 ∧ im.bbox.y1 - im.bbox.y0 ≠ 0) := by
  refine ⟨?_, ?_, ?_, ?_⟩
  · unfold categorize_image
    split_ifs <;> simp
  · intro h1 h2
    unfold categorize_image
    rw [h1, h2]
    norm_num
  · intro h1 h2
    unfold categorize_image
    rw [h1, h2]
    norm_num
  · intro hh
    constructor
    · linarith [hh.1]
    · intro h0
      rw [h0] at hh
      exact absurd hh.1 (by norm_num)

/-- Witness for C9: a 500 by 500 bounding box is categorized as other. -/
theorem categorize_image_range_witness :
    categorize_image ⟨[], ⟨0, 0, 500, 500⟩, 1, 0, none, none, none⟩ = "other" :=
  (categorize_image_range ⟨[], ⟨0, 0, 500, 500⟩, 1, 0, none, none, none⟩).2.1
    (by norm_num) (by norm_num)

/-! ## extract_piece -/

/-- A Python slice l[a:b] with clamped bounds 0 <= a and b <= len already
ensured by the caller. -/
def cropRows {α : Type} (l : List α) (a b : ℕ) : List α := (l.drop a).take (b - a)

/-- extract_piece of segment_images.py: pad the bounding box, clamp the
padded bounds to the image, and slice rows and columns. The image is modelled
as a list of rows; the row count is shape 0 and the length of the first row
is shape 1, as with a rectangular numpy array. -/
def extract_piece {α : Type} (image : List (List α)) (bbox : ℤ × ℤ × ℤ × ℤ)
    (padding : ℤ) : List (List α) :=
  (cropRows image (max 0 (bbox.2.1 - padding)).toNat
      (min (image.length : ℤ) (bbox.2.1 + bbox.2.2.2 + padding)).toNat).map
    fun r => cropRows r (max 0 (bbox.1 - padding)).toNat
      (min (((image.head?.map List.length).getD 0 : ℕ) : ℤ)
        (bbox.1 + bbox.2.2.1 + padding)).toNat

/-- Element access of a row and column of a row list. -/
def matGet {α : Type} (m : List (List α)) (r c : ℕ) : Option α :=
  (m[r]?).bind fun row => row[c]?

theorem cropRows_getElem {α : Type} (l : List α) (a b k : ℕ) (hk : k < b - a) :
    (cropRows l a b)[k]? = l[a + k]? := by
  unfold cropRows
  rw [List.getElem?_take, if_pos hk, List.getElem?_drop]

theorem cropRows_length {α : Type} (l : List α) (a b : ℕ) :
    (cropRows l a b).length = min (b - a) (l.length - a) := by
  unfold cropRows
  rw [List.length_take, List.length_drop]

/-- C10: extract_piece never indexes outside the source image. Under the
bounding box side conditions the clamped bounds are strictly ordered inside
the image, the crop dimensions are the clamped spans and are bounded by the
padded box size, and every pixel of the bounding box region appears in the
crop at its shifted position. -/
theorem extract_piece_safe {α : Type} (image : List (List α)) (W H : ℤ)
    (x y w h p : ℤ)
    (hH : (image.length : ℤ) = H)
    (hW : ∀ r ∈ image, (r.length : ℤ) = W)
    (hx0 : 0 ≤ x) (hxw : x + w ≤ W) (hy0 : 0 ≤ y) (hyh : y + h ≤ H)
    (hp : 0 ≤ p) (hw : 0 < w) (hh : 0 < h) :
    (0 ≤ max 0 (y - p) ∧ max 0 (y - p) < min H (y + h + p) ∧ min H (y + h + p) ≤ H
      ∧ 0 ≤ max 0 (x - p) ∧ max 0 (x - p) < min W (x + w + p) ∧ min W (x + w + p) ≤ W)
    ∧ (((extract_piece image (x, y, w, h) p).length : ℤ)
        = min H (y + h + p) - max 0 (y - p)
      ∧ min H (y + h + p) - max 0 (y - p) ≤ h + 2 * p)
    ∧ (∀ r ∈ extract_piece image (x, y, w, h) p,
        ((r.length : ℤ) = min W (x + w + p) - max 0 (x - p))
      ∧ min W (x + w + p) - max 0 (x - p) ≤ w + 2 * p)
    ∧ (∀ i j : ℕ, (i : ℤ) < h → (j : ℤ) < w →
        matGet (extract_piece image (x, y, w, h) p)
          ((y - max 0 (y - p)).toNat + i) ((x - max 0 (x - p)).toNat + j)
        = matGet image (y.toNat + i) (x.toNat + j)) := by
  have hHpos : 0 < H := by linarith
  have himg : image ≠ [] := by
    intro hnil
    rw [hnil] at hH
    simp only [List.length_nil, Nat.cast_zero] at hH
    omega
  have hhead : (((image.head?.map List.length).getD 0 : ℕ) : ℤ) = W := by
    cases himage : image with
    | nil => exact absurd himage himg
    | cons r0 rest =>
      simp only [himage, List.head?_cons, Option.map_some, Option.getD_some]
      exact hW r0 (himage ▸ List.mem_cons_self r0 rest)
  set ys : ℤ := max 0 (y - p) with hys
  set ye : ℤ := min H (y + h + p) with hye
  set xs : ℤ := max 0 (x - p) with hxs
  set xe : ℤ := min W (x + w + p) with hxe
  have hbounds : 0 ≤ ys ∧ ys ≤ y ∧ y + h ≤ ye ∧ ye ≤ H ∧ 0 ≤ xs ∧ xs ≤ x
      ∧ x + w ≤ xe ∧ xe ≤ W := by
    refine ⟨le_max_left 0 _, ?_, ?_, min_le_left _ _, le_max_left 0 _, ?_, ?_,
      min_le_left _ _⟩ <;> omega
  have hep : extract_piece image (x, y, w, h) p
      = (cropRows image ys.toNat ye.toNat).map fun r => cropRows r xs.toNat xe.toNat := by
    unfold extract_piece
    rw [hhead, hH]
  have hlen : (extract_piece image (x, y, w, h) p).length = ye.toNat - ys.toNat := by
    rw [hep, List.length_map, cropRows_length]
    omega
  refine ⟨by omega, ⟨by omega, by omega⟩, ?_, ?_⟩
  · intro r hr
    rw [hep] at hr
    obtain ⟨r0, hr0, hr0e⟩ := List.mem_map.mp hr
    have hr0img : r0 ∈ image := by
      have : r0 ∈ (image.drop ys.toNat).take (ye.toNat - ys.toNat) := hr0
      exact (List.drop_sublist _ _).subset ((List.take_sublist _ _).subset this)
    have hr0len : (r0.length : ℤ) = W := hW r0 hr0img
    subst hr0e
    rw [cropRows_length]
    constructor
    · omega
    · omega
  · intro i j hi hj
    have hyi : y.toNat + i < image.length := by omega
    obtain ⟨row, hrow⟩ : ∃ row, image[y.toNat + i]? = some row := by
      rw [List.getElem?_eq_getElem hyi]
      exact ⟨_, rfl⟩
    have hrowmem : row ∈ image := by
      have := List.getElem?_eq_some_iff.mp hrow
      obtain ⟨hlt, hget⟩ := this
      rw [← hget]
      exact List.getElem_mem hlt
    have hrowlen : (row.length : ℤ) = W := hW row hrowmem
    have houter : (extract_piece image (x, y, w, h) p)[(y - ys).toNat + i]?
        = some (cropRows row xs.toNat xe.toNat) := by
      rw [hep, List.getElem?_map, cropRows_getElem image ys.toNat ye.toNat _ (by omega)]
      have hidx : ys.toNat + ((y - ys).toNat + i) = y.toNat + i := by omega
      rw [hidx, hrow]
      rfl
    have hinner : (cropRows row xs.toNat xe.toNat)[(x - xs).toNat + j]?
        = row[x.toNat + j]? := by
      rw [cropRows_getElem row xs.toNat xe.toNat _ (by omega)]
      have hidx : xs.toNat + ((x - xs).toNat + j) = x.toNat + j := by omega
      rw [hidx]
    unfold matGet
    rw [houter, hrow]
    exact hinner

/-- Witness for C10: a concrete 4 by 4 image with bbox (1, 1, 2, 2) and
padding 2 keeps the bounding box pixel at its shifted position. -/
theorem extract_piece_safe_witness :
    matGet (extract_piece [[0, 1, 2, 3], [4, 5, 6, 7], [8, 9, 10, 11],
        [12, 13, 14, 15]] ((1 : ℤ), (1 : ℤ), (2 : ℤ), (2 : ℤ)) 2)
      ((1 - max 0 (1 - 2 : ℤ)).toNat + 0) ((1 - max 0 (1 - 2 : ℤ)).toNat + 0)
    = matGet [[0, 1, 2, 3], [4, 5, 6, 7], [8, 9, 10, 11], [12, 13, 14, 15]]
      ((1 : ℤ).toNat + 0) ((1 : ℤ).toNat + 0) :=
  (extract_piece_safe [[0, 1, 2, 3], [4, 5, 6, 7], [8, 9, 10, 11], [12, 13, 14, 15]]
    4 4 1 1 2 2 2 (by decide) (by decide)
    (by decide) (by decide) (by decide) (by decide) (by decide) (by decide)
    (by decide)).2.2.2 0 0 (by decide) (by decide)

/-! ## Image analysis of segment_images.py -/

/-- A grayscale or single channel matrix: rows of pixel values. -/
abbrev Mat := List (List ℕ)

/-- A loaded colour image: rows of pixels, each pixel a list of channel
values. Shape 0 is the row count, shape 1 the length of the first row and
the channel count the length of the first pixel, as for a rectangular
numpy array. -/
structure Image where
  rows : List (List (List ℕ))
deriving DecidableEq, Repr

/-- Row count of an image. -/
def Image.shape0 (img : Image) : ℕ := img.rows.length

/-- Column count of an image. -/
def Image.shape1 (img : Image) : ℕ := (img.rows.head?.map List.length).getD 0

/-- Channel count of an image. -/
def Image.chans (img : Image) : ℕ :=
  ((img.rows.head?.bind List.head?).map List.length).getD 0

/-- Element count of an image, as numpy size. -/
def Image.size (img : Image) : ℕ := img.shape0 * img.shape1 * img.chans

/-- Element count of a matrix. -/
def matSize (m : Mat) : ℕ := (m.map List.length).sum

/-- Count of the matrix entries satisfying a predicate. -/
def matCount (p : ℕ → Bool) (m : Mat) : ℕ :=
  (m.map fun r => (r.filter p).length).sum

/-- Sum of the matrix entries. -/
def matSum (m : Mat) : ℕ := (m.map List.sum).sum

/-- numpy var over the matrix entries. -/
def variance (m : Mat) : ℚ :=
  if matSize m = 0 then 0
  else
    ((m.map fun r =>
      (r.map fun v => ((v : ℚ) - (matSum m : ℚ) / (matSize m : ℚ)) ^ 2).sum).sum)
      / (matSize m : ℚ)

/-- The fraction of matrix entries satisfying a predicate. -/
def fracOf (p : ℕ → Bool) (m : Mat) : ℚ :=
  if matSize m = 0 then 0 else (matCount p m : ℚ) / (matSize m : ℚ)

/-- The alpha channel of an image: channel 3 of every pixel. -/
def alphaChannel (img : Image) : Mat :=
  img.rows.map fun r => r.map fun px => px.getD 3 0

/-- is_empty_image of segment_images.py: low variance, mostly transparent
alpha, mostly light or mostly dark means empty. The grayscale conversion is
the opaque cv2.cvtColor, a parameter. -/
def is_empty_image (cvtGray : Image → Mat) (img : Image)
    (background_threshold : ℚ) (variance_threshold : ℚ) : Bool :=
  if img.size = 0 then true
  else if variance (cvtGray img) < variance_threshold then true
  else if img.chans = 4
      ∧ background_threshold < fracOf (fun v => v < 10) (alphaChannel img) then true
  else if background_threshold < fracOf (fun v => 240 < v) (cvtGray img) then true
  else if background_threshold < fracOf (fun v => v < 15) (cvtGray img) then true
  else false

/-- has_meaningful_content of segment_images.py: enough edge pixels in the
Canny edge map. Canny is opaque, a parameter. -/
def has_meaningful_content (cvtGray : Image → Mat) (canny : Mat → ℕ → ℕ → Mat)
    (img : Image) (min_content : ℚ) (edge_threshold : ℕ) : Bool :=
  if img.size = 0 then false
  else
    min_content
      ≤ fracOf (fun v => 0 < v) (canny (cvtGray img) edge_threshold (edge_threshold * 2))

/-- is_background_only of segment_images.py: unreadable, empty, or without
meaningful content. cv2.imread with IMREAD_UNCHANGED is the imreadU
parameter. -/
def is_background_only (imreadU : String → Option Image) (cvtGray : Image → Mat)
    (canny : Mat → ℕ → ℕ → Mat) (image_path : String)
    (background_threshold : ℚ) : Bool :=
  match imreadU image_path with
  | none => true
  | some img =>
    if is_empty_image cvtGray img background_threshold 10 then true
    else if ¬ has_meaningful_content cvtGray canny img (1/20) 50 then true
    else false

/-- is_composite_image of segment_images.py: readable, not background only,
and large in at least one dimension. cv2.imread in colour mode is the
imreadC parameter. -/
def is_composite_image (imreadC imreadU : String → Option Image)
    (cvtGray : Image → Mat) (canny : Mat → ℕ → ℕ → Mat)
    (image_path : String) (min_size : ℕ) : Bool :=
  match imreadC image_path with
  | none => false
  | some img =>
    if is_background_only imreadU cvtGray canny image_path (19/20) then false
    else decide (min_size ≤ img.shape1 ∨ min_size ≤ img.shape0)

/-- is_valid_piece of segment_images.py: non empty data, at least 10 pixels
in both dimensions, not an empty image at threshold 0.90, and meaningful
content. -/
def is_valid_piece (cvtGray : Image → Mat) (canny : Mat → ℕ → ℕ → Mat)
    (piece : Image) (min_content : ℚ) : Bool :=
  if piece.size = 0 then false
  else if piece.shape0 < 10 ∨ piece.shape1 < 10 then false
  else if is_empty_image cvtGray piece (9/10) 10 then false
  else has_meaningful_content cvtGray canny piece min_content 50

/-- A piece bounding box (x, y, width, height) from cv2.boundingRect. -/
abbrev PieceBox := ℤ × ℤ × ℤ × ℤ

/-- The method dispatch of segment_composite_image. The three detectors,
built directly on cv2 threshold, morphology and findContours calls, are
opaque parameters. -/
def chooseBoxes (detContour detColor : Image → ℕ → List PieceBox)
    (detGrid : Image → List PieceBox) (image : Image) (method : String)
    (min_area : ℕ) : List PieceBox :=
  if method = "auto" then
    if (detContour image min_area).length < 2 then detColor image min_area
    else detContour image min_area
  else if method = "contour" then detContour image min_area
  else if method = "color" then detColor image min_area
  else if method = "grid" then detGrid image
  else detContour image min_area

/-- Output name of one piece file. -/
def pieceFileName (output_dir base : String) (idx : ℕ) : String :=
  output_dir ++ "/" ++ base ++ "_piece_" ++ toString (idx + 1) ++ ".png"

/-- segment_composite_image of segment_images.py, modelled as the list of
piece files it writes: load the image, detect boxes by the chosen method,
extract every box with padding, and keep a piece only when filter_empty is
off or the piece passes is_valid_piece. pathStem is the opaque
pathlib Path stem primitive. -/
def segment_composite_image (imreadC : String → Option Image)
    (detContour detColor : Image → ℕ → List PieceBox)
    (detGrid : Image → List PieceBox) (cvtGray : Image → Mat)
    (canny : Mat → ℕ → ℕ → Mat) (pathStem : String → String)
    (image_path output_dir : String) (method : String) (min_area : ℕ)
    (padding : ℤ) (filter_empty : Bool) : List (String × Image) :=
  match imreadC image_path with
  | none => []
  | some image =>
    let boxes := chooseBoxes detContour detColor detGrid image method min_area
    if boxes = [] then []
    else
      boxes.enum.filterMap fun ib =>
        if filter_empty ∧ ¬ is_valid_piece cvtGray canny
            ⟨extract_piece image.rows ib.2 padding⟩ (1/20) then none
        else some (pieceFileName output_dir (pathStem image_path) ib.1,
          ⟨extract_piece image.rows ib.2 padding⟩)

/-- The image file extensions segment_all_composites accepts. -/
def imageExtensions : List String := [".jpg", ".jpeg", ".png", ".bmp", ".tiff"]

/-- The composites segment_all_composites selects for segmentation: files
with an accepted extension, in sorted order, joined to the input directory,
that pass is_composite_image. suffixLower is the opaque pathlib
Path suffix lower primitive. -/
def compositeCandidates (imreadC imreadU : String → Option Image)
    (cvtGray : Image → Mat) (canny : Mat → ℕ → ℕ → Mat)
    (suffixLower : String → String) (input_dir : String) (files : List String)
    (min_size : ℕ) : List String :=
  ((List.insertionSort (fun a b => a ≤ b)
      (files.filter fun f => imageExtensions.contains (suffixLower f))).map
    fun f => input_dir ++ "/" ++ f).filter
    fun path => is_composite_image imreadC imreadU cvtGray canny path min_size

/-- C5: the empty region filtering of the segmentation utility. Every image
segment_all_composites selects for segmentation is not background only and
is at least min_size wide or tall (so background only images, and images
small in both dimensions, are never segmented); and with filter_empty on,
segment_composite_image writes no piece file whose crop fails
is_valid_piece. -/
theorem segmentation_filters (imreadC imreadU : String → Option Image)
    (cvtGray : Image → Mat) (canny : Mat → ℕ → ℕ → Mat)
    (detContour detColor : Image → ℕ → List PieceBox)
    (detGrid : Image → List PieceBox) (pathStem suffixLower : String → String) :
    (∀ (input_dir : String) (files : List String) (min_size : ℕ) (f : String),
      f ∈ compositeCandidates imreadC imreadU cvtGray canny suffixLower
        input_dir files min_size →
      is_background_only imreadU cvtGray canny f (19/20) = false
      ∧ ∃ img, imreadC f = some img
          ∧ (min_size ≤ img.shape1 ∨ min_size ≤ img.shape0))
    ∧ (∀ (image_path output_dir method : String) (min_area : ℕ) (padding : ℤ)
        (out : String) (piece : Image),
      (out, piece) ∈ segment_composite_image imreadC detContour detColor detGrid
        cvtGray canny pathStem image_path output_dir method min_area padding true →
      is_valid_piece cvtGray canny piece (1/20) = true) := by
  constructor
  · intro input_dir files min_size f hf
    have hgate : is_composite_image imreadC imreadU cvtGray canny f min_size = true := by
      unfold compositeCandidates at hf
      exact (List.mem_filter.mp hf).2
    unfold is_composite_image at hgate
    cases himr : imreadC f with
    | none =>
      rw [himr] at hgate
      exact absurd hgate (by simp)
    | some img =>
      rw [himr] at hgate
      have hgate2 : (if is_background_only imreadU cvtGray canny f (19/20) then false
          else decide (min_size ≤ img.shape1 ∨ min_size ≤ img.shape0)) = true := hgate
      by_cases hbg : is_background_only imreadU cvtGray canny f (19/20) = true
      · rw [if_pos hbg] at hgate2
        exact absurd hgate2 (by simp)
      · rw [if_neg hbg] at hgate2
        refine ⟨by simpa using hbg, img, rfl, of_decide_eq_true hgate2⟩
  · intro image_path output_dir method min_area padding out piece hmem
    unfold segment_composite_image at hmem
    cases himr : imreadC image_path with
    | none =>
      rw [himr] at hmem
      exact absurd hmem (by simp)
    | some image =>
      rw [himr] at hmem
      have hmem2 : (out, piece) ∈
          (if chooseBoxes detContour detColor detGrid image method min_area = []
            then ([] : List (String × Image))
            else (chooseBoxes detContour detColor detGrid image method
                min_area).enum.filterMap fun ib =>
              if (true : Bool) ∧ ¬ is_valid_piece cvtGray canny
                  ⟨extract_piece image.rows ib.2 padding⟩ (1/20) then none
              else some (pieceFileName output_dir (pathStem image_path) ib.1,
                ⟨extract_piece image.rows ib.2 padding⟩)) := hmem
      by_cases hb : chooseBoxes detContour detColor detGrid image method min_area = []
      · rw [if_pos hb] at hmem2
        exact absurd hmem2 (List.not_mem_nil _)
      · rw [if_neg hb] at hmem2
        obtain ⟨ib, _, hf⟩ := List.mem_filterMap.mp hmem2
        by_cases hval : is_valid_piece cvtGray canny
            ⟨extract_piece image.rows ib.2 padding⟩ (1/20) = true
        · have hcond : ¬ ((true : Bool) ∧ ¬ is_valid_piece cvtGray canny
              ⟨extract_piece image.rows ib.2 padding⟩ (1/20)) := by
            intro hand
            exact hand.2 hval
          rw [if_neg hcond] at hf
          injection hf with hf
          have hpc : piece = ⟨extract_piece image.rows ib.2 padding⟩ :=
            (congrArg Prod.snd hf).symm
          rw [hpc]
          exact hval
        · have hcond : ((true : Bool) ∧ ¬ is_valid_piece cvtGray canny
              ⟨extract_piece image.rows ib.2 padding⟩ (1/20)) := ⟨rfl, hval⟩
          rw [if_pos hcond] at hf
          exact absurd hf (by simp)

/-- A concrete flat grey test image used to witness the piece filter. -/
def greyImage : Image := ⟨List.replicate 10 (List.replicate 10 [5])⟩

/-- A concrete grayscale matrix with visible variance and edges, used as the
opaque conversion output in the witness. -/
def checkerMat : Mat := [[0, 100], [100, 0]]

/-- Witness for C5: the one piece a concrete contour run extracts from the
test image passes is_valid_piece. -/
theorem segmentation_filters_witness :
    is_valid_piece (fun _ => checkerMat) (fun m _ _ => m)
      ⟨extract_piece greyImage.rows ((0 : ℤ), (0 : ℤ), (10 : ℤ), (10 : ℤ)) 5⟩
      (1/20) = true := by
  have hempty : is_empty_image (fun _ => checkerMat)
      ⟨extract_piece greyImage.rows ((0 : ℤ), (0 : ℤ), (10 : ℤ), (10 : ℤ)) 5⟩
      (9/10) 10 = false := by
    rw [is_empty_image]
    rw [if_neg (by decide)]
    rw [if_neg (by norm_num [variance, matSize, matSum, checkerMat])]
    rw [if_neg (fun hand => absurd hand.1 (by decide))]
    rw [if_neg (by norm_num [fracOf, matCount, matSize, checkerMat])]
    rw [if_neg (by norm_num [fracOf, matCount, matSize, checkerMat])]
  have hcontent : has_meaningful_content (fun _ => checkerMat) (fun m _ _ => m)
      ⟨extract_piece greyImage.rows ((0 : ℤ), (0 : ℤ), (10 : ℤ), (10 : ℤ)) 5⟩
      (1/20) 50 = true := by
    rw [has_meaningful_content, if_neg (by decide)]
    simp only [decide_eq_true_eq]
    norm_num [fracOf, matCount, matSize, checkerMat]
  have hvalid : is_valid_piece (fun _ => checkerMat) (fun m _ _ => m)
      ⟨extract_piece greyImage.rows ((0 : ℤ), (0 : ℤ), (10 : ℤ), (10 : ℤ)) 5⟩
      (1/20) = true := by
    rw [is_valid_piece, if_neg (by decide), if_neg (by decide),
      if_neg (by simp [hempty])]
    exact hcontent
  have hboxes : chooseBoxes (fun _ _ => [((0 : ℤ), (0 : ℤ), (10 : ℤ), (10 : ℤ))])
      (fun _ _ => []) (fun _ => []) greyImage "contour" 500
      = [((0 : ℤ), (0 : ℤ), (10 : ℤ), (10 : ℤ))] := by
    rw [chooseBoxes, if_neg (by decide), if_pos rfl]
  have hmem : (pieceFileName "odir" "a.png" 0,
      (⟨extract_piece greyImage.rows ((0 : ℤ), (0 : ℤ), (10 : ℤ), (10 : ℤ)) 5⟩ : Image))
      ∈ segment_composite_image (fun _ => some greyImage)
        (fun _ _ => [((0 : ℤ), (0 : ℤ), (10 : ℤ), (10 : ℤ))]) (fun _ _ => [])
        (fun _ => []) (fun _ => checkerMat) (fun m _ _ => m) (fun s => s)
        "a.png" "odir" "contour" 500 5 true := by
    simp only [segment_composite_image, hboxes]
    rw [if_neg (by decide)]
    simp [List.enum, List.enumFrom, hvalid, -one_div]
  exact (segmentation_filters (fun _ => some greyImage) (fun _ => none)
    (fun _ => checkerMat) (fun m _ _ => m)
    (fun _ _ => [((0 : ℤ), (0 : ℤ), (10 : ℤ), (10 : ℤ))]) (fun _ _ => [])
    (fun _ => []) (fun s => s) (fun s => s)).2
    "a.png" "odir" "contour" 500 5 _ _ hmem

/-! ## Name resolution in the segmentation wrappers -/

/-- The Python builtins the two modules reference. -/
def pyBuiltins : List String :=
  ["sorted", "len", "print", "range", "enumerate", "isinstance", "sum",
   "max", "min", "open", "set", "tuple", "str", "int", "float",
   "Exception", "ImportError", "FileNotFoundError", "True", "False", "None"]

/-- The module level names of segment_images.py bound at import time: the
imports, the module logger and the function definitions. filter_empty and
clear_output are assigned only inside the main guard block, which does not
run when the module is imported. -/
def segmentImagesGlobals : List String :=
  ["os", "shutil", "cv2", "np", "logging", "List", "Tuple", "Optional",
   "Path", "logger", "is_empty_image", "has_meaningful_content",
   "is_background_only", "is_composite_image", "detect_pieces_contour",
   "detect_pieces_color_based", "detect_pieces_grid", "extract_piece",
   "is_valid_piece", "segment_composite_image", "segment_all_composites"]

/-- The local names of segment_all_composites: its parameters and the
variables its body assigns. -/
def segmentAllLocals : List String :=
  ["input_dir", "output_dir", "min_size", "method", "min_area",
   "filter_empty", "results", "image_extensions", "image_files",
   "filename", "image_path", "base_name", "composite_output_dir",
   "extracted"]

/-- Python name resolution inside a function body: local scope, then module
globals, then builtins. -/
def resolvesIn (locals globals : List String) (n : String) : Bool :=
  locals.contains n || globals.contains n || pyBuiltins.contains n

/-- The names the call to segment_composite_image inside
segment_all_composites evaluates, in evaluation order: the callee and the
argument expressions. -/
def segmentAllCallNames : List String :=
  ["segment_composite_image", "image_path", "composite_output_dir",
   "method", "min_area", "filter_empty", "clear_output"]

/-- The first name of a list that does not resolve, if any: evaluating it
raises NameError. -/
def firstUnresolved (locals globals : List String) (ns : List String) :
    Option String :=
  ns.find? fun n => !(resolvesIn locals globals n)

/-- The file loop of segment_all_composites: skip non composites, and for a
composite evaluate the call argument names before the call; an unresolved
name raises NameError out of the function (nothing catches it there). The
gate and the callee are abstracted as functions. -/
def segAllLoop (isComposite : String → Bool)
    (segmentFile : String → List String) :
    List String → Except String (List (String × List String))
  | [] => .ok []
  | f :: fs =>
    if isComposite f then
      match firstUnresolved segmentAllLocals segmentImagesGlobals
          segmentAllCallNames with
      | some n => .error n
      | none =>
        match segAllLoop isComposite segmentFile fs with
        | .ok rest =>
          .ok (if segmentFile f ≠ [] then (f, segmentFile f) :: rest else rest)
        | .error n => .error n
    else segAllLoop isComposite segmentFile fs

/-- segment_all_composites as imported by rebuild_lotr.py: the loop over
the sorted image files of the input directory, joined to it. -/
def segment_all_composites_run (isComposite : String → Bool)
    (segmentFile : String → List String) (suffixLower : String → String)
    (input_dir : String) (files : List String) :
    Except String (List (String × List String)) :=
  segAllLoop isComposite segmentFile
    ((List.insertionSort (fun a b => a ≤ b)
        (files.filter fun f => imageExtensions.contains (suffixLower f))).map
      fun f => input_dir ++ "/" ++ f)

/-- The module level names of rebuild_lotr.py. -/
def rebuildLotrGlobals : List String :=
  ["fitz", "os", "shutil", "logging", "sys", "dataclass", "List", "Union",
   "Optional", "Dict", "logger", "SRC", "OUT", "TextObject", "ImageObject",
   "extract_text_from_block", "get_font_info_from_block", "extract_objects",
   "categorize_image", "is_image_empty", "extract_images",
   "create_cheat_sheet", "create_html_cheatsheet", "segment_extracted_images"]

/-- The local names of segment_extracted_images: its parameters, the name
bound by the import statement inside the try block, and results. -/
def segExtractedLocals : List String :=
  ["images_dir", "output_dir", "min_size", "method", "min_area",
   "segment_all_composites", "results"]

/-- The names the call to segment_all_composites inside
segment_extracted_images evaluates, in evaluation order. -/
def segExtractedCallNames : List String :=
  ["segment_all_composites", "images_dir", "output_dir", "min_size",
   "method", "min_area", "filter_empty", "clear_output"]

/-- segment_extracted_images of rebuild_lotr.py: run segment_all_composites
inside a try block; an ImportError or any other exception, including the
NameError raised when an argument name of the call does not resolve, is
caught, logged and turned into an empty dictionary. -/
def segment_extracted_images_run
    (underlying : Except String (List (String × List String))) :
    List (String × List String) :=
  match firstUnresolved segExtractedLocals rebuildLotrGlobals
      segExtractedCallNames with
  | some _ => []
  | none =>
    match underlying with
    | .ok r => r
    | .error _ => []

theorem segAllLoop_error (isComposite : String → Bool)
    (segmentFile : String → List String) :
    ∀ l : List String, (∃ g ∈ l, isComposite g = true) →
      segAllLoop isComposite segmentFile l = .error "clear_output"
  | [], hex => by
    obtain ⟨g, hg, _⟩ := hex
    exact absurd hg (List.not_mem_nil g)
  | f :: fs, hex => by
    rw [segAllLoop]
    by_cases hf : isComposite f = true
    · rw [if_pos hf]
      rw [show firstUnresolved segmentAllLocals segmentImagesGlobals
          segmentAllCallNames = some "clear_output" from by decide]
    · rw [if_neg hf]
      obtain ⟨g, hg, hgc⟩ := hex
      rcases List.mem_cons.mp hg with hcase | hcase
      · exact absurd (hcase ▸ hgc) hf
      · exact segAllLoop_error isComposite segmentFile fs ⟨g, hcase, hgc⟩

/-- C1 (code defect): the name clear_output is not in scope inside
segment_all_composites and the names filter_empty and clear_output are not
in scope inside segment_extracted_images; consequently, on any input
directory holding at least one composite image, segment_all_composites
raises NameError instead of completing, and the segment_extracted_images
wrapper, which catches the NameError it hits while evaluating its own call
arguments, always returns the empty dictionary. -/
theorem segmentation_wrapper_name_errors :
    resolvesIn segmentAllLocals segmentImagesGlobals "clear_output" = false
    ∧ resolvesIn segExtractedLocals rebuildLotrGlobals "filter_empty" = false
    ∧ (∀ (isComposite : String → Bool) (segmentFile : String → List String)
        (suffixLower : String → String) (input_dir : String)
        (files : List String),
        (∃ f ∈ files, imageExtensions.contains (suffixLower f) = true
          ∧ isComposite (input_dir ++ "/" ++ f) = true) →
        segment_all_composites_run isComposite segmentFile suffixLower
          input_dir files = .error "clear_output")
    ∧ ∀ underlying, segment_extracted_images_run underlying = [] := by
  refine ⟨by decide, by decide, ?_, ?_⟩
  · intro isComposite segmentFile suffixLower input_dir files hex
    obtain ⟨f, hf, hext, hcomp⟩ := hex
    apply segAllLoop_error
    refine ⟨input_dir ++ "/" ++ f, ?_, hcomp⟩
    apply List.mem_map.mpr
    refine ⟨f, ?_, rfl⟩
    apply (List.Perm.mem_iff (List.perm_insertionSort _ _)).mpr
    exact List.mem_filter.mpr ⟨hf, hext⟩
  · intro underlying
    unfold segment_extracted_images_run
    rw [show firstUnresolved segExtractedLocals rebuildLotrGlobals
        segExtractedCallNames = some "filter_empty" from by decide]

/-- Witness for C1: a directory with the single composite a.png makes
segment_all_composites raise NameError on clear_output. -/
theorem segmentation_wrapper_name_errors_witness :
    segment_all_composites_run (fun _ => true) (fun _ => []) (fun _ => ".png")
      "cheatsheet_images" ["a.png"] = .error "clear_output" :=
  segmentation_wrapper_name_errors.2.2.1 (fun _ => true) (fun _ => [])
    (fun _ => ".png") "cheatsheet_images" ["a.png"]
    ⟨"a.png", by decide, by decide, rfl⟩

/-! ## Artifacts written by the main entry point of rebuild_lotr.py -/

/-- A file artifact written by the pipeline. -/
inductive Artifact
  | txtSheet (path : String)
  | htmlSheet (path : String)
  | imageFile (path : String)
  | pdfFile (path : String)
deriving DecidableEq, Repr

/-- Whether an artifact is a PDF file. -/
def Artifact.isPdf : Artifact → Bool
  | .pdfFile _ => true
  | _ => false

/-- is_image_empty of rebuild_lotr.py: skip the check when filter_empty is
off, treat undecodable bytes as empty, then check variance, light fraction,
dark fraction and edge fraction against the same thresholds as the
segmentation module. imdecode is the opaque cv2.imdecode primitive. -/
def is_image_empty (imdecode : List ℕ → Option Image) (cvtGray : Image → Mat)
    (canny : Mat → ℕ → ℕ → Mat) (image_bytes : List ℕ)
    (filter_empty : Bool) : Bool :=
  if !filter_empty then false
  else
    match imdecode image_bytes with
    | none => true
    | some img =>
      if variance (cvtGray img) < 10 then true
      else if 19/20 < fracOf (fun v => 240 < v) (cvtGray img) then true
      else if 19/20 < fracOf (fun v => v < 15) (cvtGray img) then true
      else if fracOf (fun v => 0 < v) (canny (cvtGray img) 50 100) < 1/20 then true
      else false

/-- The file extension extract_images chooses from the stored ext and the
magic bytes of the image data. -/
def chooseExt (image_bytes : List ℕ) (e : Option Str) : Str :=
  if image_bytes.take 4 = [137, 80, 78, 71] then
    match e with
    | some s => if s = [] then jpgStr else s
    | none => jpgStr
  else if image_bytes.take 3 = [71, 73, 70] then "gif".toList
  else if image_bytes.take 2 = [255, 216] then jpgStr
  else if e = some pngStr then pngStr
  else jpgStr

/-- The file name extract_images writes one image object to. -/
def imageFileName (page_num idx : ℕ) (xref : ℤ) (ext : Str) : String :=
  if xref = -1 then
    "page" ++ toString (page_num + 1) ++ "_full." ++ String.mk ext
  else
    "page" ++ toString (page_num + 1) ++ "_img" ++ toString idx ++ "_"
      ++ toString xref ++ "." ++ String.mk ext

/-- extract_images of rebuild_lotr.py, modelled as the list of files it
writes: walk pages in sorted key order, enumerate the page objects, skip
text objects, skip images whose bbox is below min_size in both dimensions,
skip empty images when filtering, and write one image file per remaining
object, inside the category directory when categorizing. -/
def extract_images (imdecode : List ℕ → Option Image) (cvtGray : Image → Mat)
    (canny : Mat → ℕ → ℕ → Mat) (data : List (ℕ × List PageObject))
    (output_dir : String) (categorize : Bool) (min_size : ℚ)
    (filter_empty : Bool) : List Artifact :=
  ((sortedKeys data).map fun page_num =>
    (lookupPage data page_num).enum.filterMap fun io =>
      match io.2 with
      | .text _ => none
      | .image im =>
        if im.bbox.x1 - im.bbox.x0 < min_size
            ∧ im.bbox.y1 - im.bbox.y0 < min_size then none
        else if filter_empty
            ∧ is_image_empty imdecode cvtGray canny im.image_bytes true then none
        else if categorize then
          some (.imageFile (output_dir ++ "/" ++ categorize_image im ++ "/"
            ++ imageFileName page_num io.1 im.xref (chooseExt im.image_bytes im.ext)))
        else
          some (.imageFile (output_dir ++ "/"
            ++ imageFileName page_num io.1 im.xref
              (chooseExt im.image_bytes im.ext)))).flatten

/-- create_cheat_sheet of rebuild_lotr.py, modelled as the file it writes. -/
def create_cheat_sheet (data : List (ℕ × List PageObject))
    (output_path : String) : List Artifact :=
  [.txtSheet output_path]

/-- create_html_cheatsheet of rebuild_lotr.py, modelled as the files it
writes: the images it extracts with default arguments, then the html
file. -/
def create_html_cheatsheet (imdecode : List ℕ → Option Image)
    (cvtGray : Image → Mat) (canny : Mat → ℕ → ℕ → Mat)
    (data : List (ℕ × List PageObject)) (output_path : String)
    (filter_empty : Bool) : List Artifact :=
  extract_images imdecode cvtGray canny data "cheatsheet_images" false 50
    filter_empty ++ [.htmlSheet output_path]

/-- The files segment_extracted_images writes: whatever the underlying
segmentation would write, except that an unresolved name among the call
arguments raises NameError before the call, so nothing is written. -/
def segment_extracted_images_writes (underlyingWrites : List Artifact) :
    List Artifact :=
  match firstUnresolved segExtractedLocals rebuildLotrGlobals
      segExtractedCallNames with
  | some _ => []
  | none => underlyingWrites

/-- The SRC path constant of rebuild_lotr.py. -/
def srcPdf : String := "risk-lord-of-the-rings-edition.pdf"

/-- The OUT path constant of rebuild_lotr.py: defined at the top of the
file and never used by any function. -/
def outPdf : String := "rebuilt_lotr.pdf"

/-- The main entry point of rebuild_lotr.py, modelled as the artifacts it
writes: extract objects from the fixed source, write the text cheat sheet,
write the html cheat sheet with its images, and run the segmentation
wrapper when the segment flag is given. -/
def rebuild_main (fs : String → Bool) (docOf : String → PdfDoc)
    (imdecode : List ℕ → Option Image) (cvtGray : Image → Mat)
    (canny : Mat → ℕ → ℕ → Mat) (segWrites : List Artifact)
    (argv : List String) : Except ExtractError (List Artifact) :=
  match extract_objects fs docOf srcPdf (argv.contains "--page-images") with
  | .error e => .error e
  | .ok data =>
    .ok (create_cheat_sheet data "lotr_risk_cheatsheet.txt"
      ++ create_html_cheatsheet imdecode cvtGray canny data
          "lotr_risk_cheatsheet.html" true
      ++ (if argv.contains "--segment" then
          segment_extracted_images_writes segWrites else []))

theorem extract_images_only_images (imdecode : List ℕ → Option Image)
    (cvtGray : Image → Mat) (canny : Mat → ℕ → ℕ → Mat)
    (data : List (ℕ × List PageObject)) (output_dir : String)
    (categorize : Bool) (min_size : ℚ) (filter_empty : Bool) :
    ∀ a ∈ extract_images imdecode cvtGray canny data output_dir categorize
      min_size filter_empty, ∃ p, a = .imageFile p := by
  intro a ha
  unfold extract_images at ha
  obtain ⟨l, hl, hal⟩ := List.mem_flatten.mp ha
  obtain ⟨page_num, _, hpl⟩ := List.mem_map.mp hl
  rw [← hpl] at hal
  obtain ⟨io, _, hf⟩ := List.mem_filterMap.mp hal
  split at hf
  · exact absurd hf (by simp)
  · split at hf
    · exact absurd hf (by simp)
    · split at hf
      · exact absurd hf (by simp)
      · split at hf
        · injection hf with hf
          exact ⟨_, hf.symm⟩
        · injection hf with hf
          exact ⟨_, hf.symm⟩

/-- C2 counterexample: on a concrete one page document the main entry point
writes no PDF artifact at all, although it completes and writes the text
and html cheat sheets. -/
theorem rebuild_main_no_pdf_counterexample :
    (rebuild_main (fun _ => true) (fun _ => ⟨[⟨.nonDict, none, none, 10, 10⟩],
        fun _ => .exn⟩) (fun _ => none) (fun _ => []) (fun m _ _ => m) [] []).map
      (fun ws => ws.any Artifact.isPdf) = .ok false := by
  rfl

/-- C2 as amended: whenever the main entry point completes, the text cheat
sheet and the html cheat sheet have been written, and no PDF artifact has
been written: the OUT constant is dead and nothing rebuilds a PDF. -/
theorem rebuild_main_artifacts (fs : String → Bool) (docOf : String → PdfDoc)
    (imdecode : List ℕ → Option Image) (cvtGray : Image → Mat)
    (canny : Mat → ℕ → ℕ → Mat) (segWrites : List Artifact)
    (argv : List String) (ws : List Artifact)
    (h : rebuild_main fs docOf imdecode cvtGray canny segWrites argv = .ok ws) :
    Artifact.txtSheet "lotr_risk_cheatsheet.txt" ∈ ws
    ∧ Artifact.htmlSheet "lotr_risk_cheatsheet.html" ∈ ws
    ∧ ∀ a ∈ ws, a.isPdf = false := by
  unfold rebuild_main at h
  cases hex : extract_objects fs docOf srcPdf (argv.contains "--page-images") with
  | error e =>
    rw [hex] at h
    exact absurd h (by simp)
  | ok data =>
    rw [hex] at h
    injection h with h
    subst h
    have hseg : segment_extracted_images_writes segWrites = [] := by
      unfold segment_extracted_images_writes
      rw [show firstUnresolved segExtractedLocals rebuildLotrGlobals
          segExtractedCallNames = some "filter_empty" from by decide]
    refine ⟨?_, ?_, ?_⟩
    · exact List.mem_append.mpr (Or.inl (List.mem_append.mpr
        (Or.inl (List.mem_singleton.mpr rfl))))
    · refine List.mem_append.mpr (Or.inl (List.mem_append.mpr (Or.inr ?_)))
      unfold create_html_cheatsheet
      exact List.mem_append.mpr (Or.inr (List.mem_singleton.mpr rfl))
    · intro a ha
      rcases List.mem_append.mp ha with hcase | hcase
      · rcases List.mem_append.mp hcase with hc2 | hc2
        · unfold create_cheat_sheet at hc2
          rw [List.mem_singleton.mp hc2]
          rfl
        · unfold create_html_cheatsheet at hc2
          rcases List.mem_append.mp hc2 with hc3 | hc3
          · obtain ⟨p, hp⟩ := extract_images_only_images imdecode cvtGray canny
              data "cheatsheet_images" false 50 true a hc3
            rw [hp]
            rfl
          · rw [List.mem_singleton.mp hc3]
            rfl
      · by_cases hflag : argv.contains "--segment" = true
        · rw [if_pos hflag, hseg] at hcase
          exact absurd hcase (List.not_mem_nil a)
        · rw [if_neg hflag] at hcase
          exact absurd hcase (List.not_mem_nil a)

/-- Witness for C2: the concrete one page run writes the two cheat sheets
and nothing else that is a PDF. -/
theorem rebuild_main_artifacts_witness :
    Artifact.txtSheet "lotr_risk_cheatsheet.txt"
        ∈ [Artifact.txtSheet "lotr_risk_cheatsheet.txt",
           Artifact.htmlSheet "lotr_risk_cheatsheet.html"]
    ∧ Artifact.htmlSheet "lotr_risk_cheatsheet.html"
        ∈ [Artifact.txtSheet "lotr_risk_cheatsheet.txt",
           Artifact.htmlSheet "lotr_risk_cheatsheet.html"]
    ∧ ∀ a ∈ [Artifact.txtSheet "lotr_risk_cheatsheet.txt",
        Artifact.htmlSheet "lotr_risk_cheatsheet.html"], a.isPdf = false :=
  rebuild_main_artifacts (fun _ => true)
    (fun _ => ⟨[⟨.nonDict, none, none, 10, 10⟩], fun _ => .exn⟩)
    (fun _ => none) (fun _ => []) (fun m _ _ => m) [] []
    [Artifact.txtSheet "lotr_risk_cheatsheet.txt",
     Artifact.htmlSheet "lotr_risk_cheatsheet.html"] (by rfl)

/-! ## Immutability of the extracted records -/

/-- The record fields of TextObject and ImageObject. -/
inductive RecField
  | textF
  | bboxF
  | fontsizeF
  | fontnameF
  | pageNumF
  | imageBytesF
  | xrefF
  | widthF
  | heightF
  | extF
deriving DecidableEq, Repr

/-- An operation on the page indexed record collection: a field read, or a
write replacing the record at a page and index. -/
inductive RecOp
  | read (page idx : ℕ) (f : RecField)
  | write (page idx : ℕ) (o : PageObject)
deriving DecidableEq, Repr

/-- Whether an operation is a read. -/
def RecOp.isRead : RecOp → Bool
  | .read _ _ _ => true
  | .write _ _ _ => false

/-- Apply one record operation to the collection: a read changes nothing, a
write replaces the record at its slot. -/
def applyOp (heap : List (ℕ × List PageObject)) : RecOp → List (ℕ × List PageObject)
  | .read _ _ _ => heap
  | .write page idx o =>
    heap.map fun pr => if pr.1 = page then (pr.1, pr.2.set idx o) else pr

/-- Apply a list of record operations in order. -/
def applyOps (heap : List (ℕ × List PageObject)) (ops : List RecOp) :
    List (ℕ × List PageObject) :=
  ops.foldl applyOp heap

theorem applyOps_of_reads :
    ∀ (ops : List RecOp) (heap : List (ℕ × List PageObject)),
      (∀ op ∈ ops, op.isRead = true) → applyOps heap ops = heap
  | [], _, _ => rfl
  | op :: ops, heap, h => by
    cases op with
    | read page idx f =>
      rw [applyOps, List.foldl_cons]
      exact applyOps_of_reads ops heap fun o ho => h o (List.mem_cons_of_mem _ ho)
    | write page idx o =>
      exact absurd (h _ (List.mem_cons_self _ _)) (by simp [RecOp.isRead])

/-- The fields extract_images reads from one image object, in source order:
the bbox for the size filter; when the object passes it and filtering is
on, the bytes for the emptiness check; when the object survives, the ext
and the bytes for the extension choice, the bbox again through
categorize_image when categorizing, and the bytes for the file write and
the size log. -/
def imageReadFields (imdecode : List ℕ → Option Image) (cvtGray : Image → Mat)
    (canny : Mat → ℕ → ℕ → Mat) (categorize : Bool) (min_size : ℚ)
    (filter_empty : Bool) (im : ImageObject) : List RecField :=
  [.bboxF]
  ++ (if im.bbox.x1 - im.bbox.x0 < min_size
        ∧ im.bbox.y1 - im.bbox.y0 < min_size then []
    else
      (if filter_empty then [.imageBytesF] else [])
      ++ (if filter_empty
            ∧ is_image_empty imdecode cvtGray canny im.image_bytes true then []
        else [.extF, .imageBytesF]
          ++ (if categorize then [.bboxF] else [])
          ++ [.imageBytesF, .imageBytesF]))

/-- The record operations extract_images performs on one page: the text of
every text object when categorizing (the page text cache), then the reads
of every image object. -/
def extractImagesPageTrace (imdecode : List ℕ → Option Image)
    (cvtGray : Image → Mat) (canny : Mat → ℕ → ℕ → Mat) (categorize : Bool)
    (min_size : ℚ) (filter_empty : Bool) (page : ℕ)
    (objs : List PageObject) : List RecOp :=
  (if categorize then
    objs.enum.filterMap fun io =>
      match io.2 with
      | .text _ => some (.read page io.1 .textF)
      | .image _ => none
  else [])
  ++ (objs.enum.map fun io =>
    match io.2 with
    | .text _ => []
    | .image im =>
      (imageReadFields imdecode cvtGray canny categorize min_size
        filter_empty im).map (RecOp.read page io.1)).flatten

/-- The record operations extract_images performs: the page traces in
sorted key order. -/
def extract_images_trace (imdecode : List ℕ → Option Image)
    (cvtGray : Image → Mat) (canny : Mat → ℕ → ℕ → Mat)
    (data : List (ℕ × List PageObject)) (categorize : Bool) (min_size : ℚ)
    (filter_empty : Bool) : List RecOp :=
  ((sortedKeys data).map fun page =>
    extractImagesPageTrace imdecode cvtGray canny categorize min_size
      filter_empty page (lookupPage data page)).flatten

/-- The record operations create_cheat_sheet performs: the text of every
text object of every page, in sorted key order. -/
def create_cheat_sheet_trace (data : List (ℕ × List PageObject)) : List RecOp :=
  ((sortedKeys data).map fun page =>
    (lookupPage data page).enum.filterMap fun io =>
      match io.2 with
      | .text _ => some (RecOp.read page io.1 .textF)
      | .image _ => none).flatten

/-- The record operations create_html_cheatsheet performs beyond writing
static markup: those of the extract_images call it opens with. -/
def create_html_cheatsheet_trace (imdecode : List ℕ → Option Image)
    (cvtGray : Image → Mat) (canny : Mat → ℕ → ℕ → Mat)
    (data : List (ℕ × List PageObject)) (filter_empty : Bool) : List RecOp :=
  extract_images_trace imdecode cvtGray canny data false 50 filter_empty

/-- The record operations categorize_image performs on its argument. -/
def categorize_image_trace (page idx : ℕ) : List RecOp :=
  [.read page idx .bboxF]

theorem extractImagesPageTrace_reads (imdecode : List ℕ → Option Image)
    (cvtGray : Image → Mat) (canny : Mat → ℕ → ℕ → Mat) (categorize : Bool)
    (min_size : ℚ) (filter_empty : Bool) (page : ℕ) (objs : List PageObject) :
    ∀ op ∈ extractImagesPageTrace imdecode cvtGray canny categorize min_size
      filter_empty page objs, op.isRead = true := by
  intro op hop
  unfold extractImagesPageTrace at hop
  rcases List.mem_append.mp hop with hcase | hcase
  · by_cases hcat : categorize = true
    · rw [if_pos hcat] at hcase
      obtain ⟨io, _, hf⟩ := List.mem_filterMap.mp hcase
      split at hf
      · injection hf with hf
        rw [← hf]
        rfl
      · exact absurd hf (by simp)
    · rw [if_neg hcat] at hcase
      exact absurd hcase (List.not_mem_nil op)
  · obtain ⟨l, hl, hol⟩ := List.mem_flatten.mp hcase
    obtain ⟨io, _, hiol⟩ := List.mem_map.mp hl
    rw [← hiol] at hol
    split at hol
    · exact absurd hol (List.not_mem_nil op)
    · obtain ⟨f, _, hfop⟩ := List.mem_map.mp hol
      rw [← hfop]
      rfl

theorem create_cheat_sheet_trace_reads (data : List (ℕ × List PageObject)) :
    ∀ op ∈ create_cheat_sheet_trace data, op.isRead = true := by
  intro op hop
  unfold create_cheat_sheet_trace at hop
  obtain ⟨l, hl, hol⟩ := List.mem_flatten.mp hop
  obtain ⟨page, _, hpl⟩ := List.mem_map.mp hl
  rw [← hpl] at hol
  obtain ⟨io, _, hf⟩ := List.mem_filterMap.mp hol
  split at hf
  · injection hf with hf
    rw [← hf]
    rfl
  · exact absurd hf (by simp)

theorem extract_images_trace_reads (imdecode : List ℕ → Option Image)
    (cvtGray : Image → Mat) (canny : Mat → ℕ → ℕ → Mat)
    (data : List (ℕ × List PageObject)) (categorize : Bool) (min_size : ℚ)
    (filter_empty : Bool) :
    ∀ op ∈ extract_images_trace imdecode cvtGray canny data categorize
      min_size filter_empty, op.isRead = true := by
  intro op hop
  unfold extract_images_trace at hop
  obtain ⟨l, hl, hol⟩ := List.mem_flatten.mp hop
  obtain ⟨page, _, hpl⟩ := List.mem_map.mp hl
  rw [← hpl] at hol
  exact extractImagesPageTrace_reads imdecode cvtGray canny categorize
    min_size filter_empty page (lookupPage data page) op hol

/-- C6: none of the downstream consumers mutates an extracted record. The
record operation traces of extract_images, create_cheat_sheet,
create_html_cheatsheet and categorize_image contain only reads, so running
any of them leaves every TextObject and ImageObject of the collection
exactly as extract_objects constructed it. -/
theorem consumers_never_mutate (imdecode : List ℕ → Option Image)
    (cvtGray : Image → Mat) (canny : Mat → ℕ → ℕ → Mat)
    (data heap : List (ℕ × List PageObject)) (categorize : Bool)
    (min_size : ℚ) (filter_empty : Bool) (page idx : ℕ) :
    applyOps heap (extract_images_trace imdecode cvtGray canny data categorize
      min_size filter_empty) = heap
    ∧ applyOps heap (create_cheat_sheet_trace data) = heap
    ∧ applyOps heap (create_html_cheatsheet_trace imdecode cvtGray canny data
        filter_empty) = heap
    ∧ applyOps heap (categorize_image_trace page idx) = heap := by
  refine ⟨?_, ?_, ?_, ?_⟩
  · exact applyOps_of_reads _ heap
      (extract_images_trace_reads imdecode cvtGray canny data categorize
        min_size filter_empty)
  · exact applyOps_of_reads _ heap (create_cheat_sheet_trace_reads data)
  · exact applyOps_of_reads _ heap
      (extract_images_trace_reads imdecode cvtGray canny data false 50
        filter_empty)
  · exact applyOps_of_reads _ heap
      (by intro op hop; rw [List.mem_singleton.mp hop]; rfl)

end LotR
